import Mathlib

/-!
Verification development for the go-template-viewer helper program
(`go-helper/main.go`, `analyzer.go`, `renderer.go`, `serve.go`).

The Go sources are shallowly embedded below.  Conventions used throughout:

* Go machine integers are modelled as `Int`; where overflow can matter the
  wrap-around is written explicitly (`wrapInt64`).
* Go `float64` values are modelled as exact rationals (`ℚ`); the embedding
  therefore treats numeric conversions as exact, which is faithful for the
  comparison structure the claims are about.
* Fallible operations return `Option`/`Except`.
* Go maps keyed by strings are modelled as association lists; the analyzer's
  variable map, keyed in Go by the string `path + "::" + context`, is keyed
  here by the pair `(path, context)` (template identifiers cannot contain
  `:`, so the two keyings agree).
* File-system and network effects are abstracted into oracle functions that
  are passed in as parameters (`FileSpec`, `listenOK`, …); the control flow
  around them is translated from the source.
-/

namespace GTV

/-! ## Renderer helper functions `div` and `mod` (renderer.go 436-450)

In Go these helpers take `int` (64-bit) arguments; `a / b` truncates toward
zero and `a % b` takes the sign of the dividend.  The single overflowing
case `minInt64 / -1` wraps around, which `wrapInt64` makes explicit. -/

def int64Min : Int := -(2 ^ 63)

def int64Max : Int := 2 ^ 63 - 1

def inInt64Range (x : Int) : Prop := int64Min ≤ x ∧ x ≤ int64Max

instance (x : Int) : Decidable (inInt64Range x) := by
  unfold inInt64Range; infer_instance

def wrapInt64 (x : Int) : Int := (x + 2 ^ 63) % 2 ^ 64 - 2 ^ 63

def goDiv (a b : Int) : Int :=
  if b = 0 then 0 else wrapInt64 (Int.tdiv a b)

def goMod (a b : Int) : Int :=
  if b = 0 then 0 else Int.tmod a b

/-! ## Port acquisition (serve.go 1626-1650, `listenWithFallback`)

`listenOK p` abstracts whether `net.Listen("tcp", ":p")` succeeds;
`osAssign` abstracts the outcome of listening on `:0` (the port the OS
hands out, or `none` when even that fails). -/

def listenLoop (listenOK : Nat → Bool) (preferredPort : Nat) : Nat → Option Nat
  | 0 => none
  | fuel + 1 =>
      let offset := 11 - (fuel + 1)
      if listenOK (preferredPort + offset) then some (preferredPort + offset)
      else listenLoop listenOK preferredPort fuel

def listenWithFallback (listenOK : Nat → Bool) (osAssign : Option Nat)
    (preferredPort : Nat) : Except String Nat :=
  if listenOK preferredPort then .ok preferredPort
  else
    match listenLoop listenOK preferredPort 10 with
    | some p => .ok p
    | none =>
        match osAssign with
        | some p => .ok p
        | none => .error "no available port found"

/-- The sequence of ports the function attempts, in order: the configured
port, then the ten following ports, then the OS-assigned port (`:0`,
represented by `none`). -/
def attemptSequence (preferredPort : Nat) : List (Option Nat) :=
  (List.range 11).map (fun k => some (preferredPort + k)) ++ [none]

/-! ## CLI dispatch (main.go 11-59)

`main` reads `os.Args`; with fewer than two entries it prints usage and
exits 1, otherwise it switches on `os.Args[1]`.  Only `inspect` and
`render` have cases; every other command falls through to the default
branch, which prints `Unknown command: <cmd>` and exits 1.  The flag
parsing inside the two known branches is abstracted away. -/

inductive CliOutcome where
  | usageError
  | ranInspect
  | ranRender
  | unknownCommand (cmd : String)
deriving DecidableEq, Repr

def mainDispatch (args : List String) : CliOutcome :=
  match args with
  | _prog :: cmd :: _rest =>
      if cmd = "inspect" then .ranInspect
      else if cmd = "render" then .ranRender
      else .unknownCommand cmd
  | _ => .usageError

def cliExitCode : CliOutcome → Nat
  | .usageError => 1
  | .unknownCommand _ => 1
  | .ranInspect => 0
  | .ranRender => 0

/-- The ready line `DevServer.start` prints on stdout after binding its
listener (serve.go 225).  `mainDispatch` has no path that reaches
`runServe`, so this line is never produced by the CLI. -/
def serveReadyLine (actualPort : Nat) : String :=
  "SERVE_READY|port=" ++ toString actualPort

/-! ## Flexible comparison runtime (renderer.go 567-675)

Go dynamic values as they occur in template data.  JSON-decoded data
yields `float64`, `string`, `bool`, `nil`, `[]interface{}` and
`map[string]interface{}`; the comparison helpers additionally accept every
Go integer width.  Numeric payloads are exact rationals (see header). -/

inductive GoVal where
  | vFloat64 (q : ℚ)
  | vFloat32 (q : ℚ)
  | vInt (n : Int)
  | vInt8 (n : Int)
  | vInt16 (n : Int)
  | vInt32 (n : Int)
  | vInt64 (n : Int)
  | vUint (n : Nat)
  | vUint8 (n : Nat)
  | vUint16 (n : Nat)
  | vUint32 (n : Nat)
  | vUint64 (n : Nat)
  | vString (s : String)
  | vBool (b : Bool)
  | vNil
  | vList (xs : List GoVal)
  | vMap (m : List (String × GoVal))

/-- Translation of `toFloat64` (renderer.go 568-597): the twelve numeric
cases convert to `float64`; everything else reports failure. -/
def toFloat64 : GoVal → Option ℚ
  | .vFloat64 q => some q
  | .vFloat32 q => some q
  | .vInt n => some (n : ℚ)
  | .vInt8 n => some (n : ℚ)
  | .vInt16 n => some (n : ℚ)
  | .vInt32 n => some (n : ℚ)
  | .vInt64 n => some (n : ℚ)
  | .vUint n => some (n : ℚ)
  | .vUint8 n => some (n : ℚ)
  | .vUint16 n => some (n : ℚ)
  | .vUint32 n => some (n : ℚ)
  | .vUint64 n => some (n : ℚ)
  | _ => none

def lookupGo (k : String) (m : List (String × GoVal)) : Option GoVal :=
  (m.find? (fun e => e.1 = k)).map (fun e => e.2)

/-- Lexicographic order on character lists, modelling Go's `<` on
strings (byte order; identical on ASCII data). -/
def clLt : List Char → List Char → Bool
  | [], [] => false
  | [], _ :: _ => true
  | _ :: _, [] => false
  | c :: cs, d :: ds => c < d || (c = d && clLt cs ds)

def strLt (s t : String) : Bool := clLt s.data t.data

def strLe (s t : String) : Bool := strLt s t || s == t

mutual

/-- Structural equality in the sense of `reflect.DeepEqual`: values are
equal when they have the same dynamic type and structurally equal
contents; maps compare by key lookup, slices pointwise. -/
def deepEqual : GoVal → GoVal → Bool
  | .vFloat64 a, .vFloat64 b => a == b
  | .vFloat32 a, .vFloat32 b => a == b
  | .vInt a, .vInt b => a == b
  | .vInt8 a, .vInt8 b => a == b
  | .vInt16 a, .vInt16 b => a == b
  | .vInt32 a, .vInt32 b => a == b
  | .vInt64 a, .vInt64 b => a == b
  | .vUint a, .vUint b => a == b
  | .vUint8 a, .vUint8 b => a == b
  | .vUint16 a, .vUint16 b => a == b
  | .vUint32 a, .vUint32 b => a == b
  | .vUint64 a, .vUint64 b => a == b
  | .vString a, .vString b => a == b
  | .vBool a, .vBool b => a == b
  | .vNil, .vNil => true
  | .vList as, .vList bs => deepEqualList as bs
  | .vMap as, .vMap bs => (as.length == bs.length) && deepEqualMap as bs
  | _, _ => false
termination_by a b => sizeOf a + sizeOf b

def deepEqualList : List GoVal → List GoVal → Bool
  | [], [] => true
  | a :: as, b :: bs => deepEqual a b && deepEqualList as bs
  | _, _ => false
termination_by as bs => sizeOf as + sizeOf bs

def deepEqualMap : List (String × GoVal) → List (String × GoVal) → Bool
  | [], _ => true
  | e :: rest, bs =>
      (match hw : lookupGo e.1 bs with
       | some w => deepEqual e.2 w
       | none => false)
      && deepEqualMap rest bs
termination_by as bs => sizeOf as + sizeOf bs
decreasing_by
  all_goals simp_wf
  all_goals cases e with
  | mk k v =>
      have key : ∀ (m : List (String × GoVal)) (u : GoVal),
          lookupGo k m = some u → sizeOf u < sizeOf m := by
        intro m u h
        induction m with
        | nil => simp [lookupGo] at h
        | cons f rest ih =>
            by_cases hk : f.1 = k
            · unfold lookupGo at h
              rw [List.find?_cons_of_pos _ (by simp [hk])] at h
              simp at h
              subst h
              cases f with
              | mk a b => simp; omega
            · unfold lookupGo at h
              rw [List.find?_cons_of_neg _ (by simp [hk])] at h
              have hr : lookupGo k rest = some u := h
              have := ih hr
              simp
              omega
      have := key bs w hw
      simp at this ⊢
      omega

end

/-- Translation of `flexibleEq` (renderer.go 600-609): numeric comparison
when both operands convert to `float64`, otherwise `reflect.DeepEqual`. -/
def flexibleEq (a b : GoVal) : Bool :=
  match toFloat64 a, toFloat64 b with
  | some x, some y => x == y
  | _, _ => deepEqual a b

def flexibleNe (a b : GoVal) : Bool := !flexibleEq a b

def flexibleLt (a b : GoVal) : Bool :=
  match toFloat64 a, toFloat64 b with
  | some x, some y => decide (x < y)
  | _, _ =>
      match a, b with
      | .vString s, .vString t => strLt s t
      | _, _ => false

def flexibleLe (a b : GoVal) : Bool :=
  match toFloat64 a, toFloat64 b with
  | some x, some y => decide (x ≤ y)
  | _, _ =>
      match a, b with
      | .vString s, .vString t => strLe s t
      | _, _ => false

def flexibleGt (a b : GoVal) : Bool :=
  match toFloat64 a, toFloat64 b with
  | some x, some y => decide (x > y)
  | _, _ =>
      match a, b with
      | .vString s, .vString t => strLt t s
      | _, _ => false

def flexibleGe (a b : GoVal) : Bool :=
  match toFloat64 a, toFloat64 b with
  | some x, some y => decide (x ≥ y)
  | _, _ =>
      match a, b with
      | .vString s, .vString t => strLe t s
      | _, _ => false

/-! Specification-side comparison predicates, written from the spec's
three-rule description (§4.5) rather than from the code, for comparison
with the implementation above. -/

def isNumericSpec : GoVal → Bool
  | .vFloat64 _ | .vFloat32 _ => true
  | .vInt _ | .vInt8 _ | .vInt16 _ | .vInt32 _ | .vInt64 _ => true
  | .vUint _ | .vUint8 _ | .vUint16 _ | .vUint32 _ | .vUint64 _ => true
  | _ => false

def numValSpec : GoVal → ℚ
  | .vFloat64 q => q
  | .vFloat32 q => q
  | .vInt n => (n : ℚ)
  | .vInt8 n => (n : ℚ)
  | .vInt16 n => (n : ℚ)
  | .vInt32 n => (n : ℚ)
  | .vInt64 n => (n : ℚ)
  | .vUint n => (n : ℚ)
  | .vUint8 n => (n : ℚ)
  | .vUint16 n => (n : ℚ)
  | .vUint32 n => (n : ℚ)
  | .vUint64 n => (n : ℚ)
  | _ => 0

def isStringSpec : GoVal → Bool
  | .vString _ => true
  | _ => false

def strValSpec : GoVal → String
  | .vString s => s
  | _ => ""

def specEq (a b : GoVal) : Bool :=
  if isNumericSpec a && isNumericSpec b then numValSpec a == numValSpec b
  else if isStringSpec a && isStringSpec b then strValSpec a == strValSpec b
  else deepEqual a b

def specNe (a b : GoVal) : Bool := !specEq a b

def specLt (a b : GoVal) : Bool :=
  if isNumericSpec a && isNumericSpec b then decide (numValSpec a < numValSpec b)
  else if isStringSpec a && isStringSpec b then strLt (strValSpec a) (strValSpec b)
  else false

def specLe (a b : GoVal) : Bool :=
  if isNumericSpec a && isNumericSpec b then decide (numValSpec a ≤ numValSpec b)
  else if isStringSpec a && isStringSpec b then strLe (strValSpec a) (strValSpec b)
  else false

def specGt (a b : GoVal) : Bool :=
  if isNumericSpec a && isNumericSpec b then decide (numValSpec a > numValSpec b)
  else if isStringSpec a && isStringSpec b then strLt (strValSpec b) (strValSpec a)
  else false

def specGe (a b : GoVal) : Bool :=
  if isNumericSpec a && isNumericSpec b then decide (numValSpec a ≥ numValSpec b)
  else if isStringSpec a && isStringSpec b then strLe (strValSpec b) (strValSpec a)
  else false

/-! ## Context-mode render data (serve.go 1169-1191, `handleContextPage`)

JSON objects are association lists of `GoVal` with unique keys (Go maps).
`setKeyJ` models `data[k] = v`; `copySkippingTC` models the two copy loops
that transfer every entry except `_templateContext`. -/

def setKeyJ (m : List (String × GoVal)) (k : String) (v : GoVal) :
    List (String × GoVal) :=
  if (m.find? (fun e => e.1 = k)).isSome then
    m.map (fun e => if e.1 = k then (k, v) else e)
  else m ++ [(k, v)]

def copySkippingTC (base upd : List (String × GoVal)) : List (String × GoVal) :=
  upd.foldl (fun acc e =>
    if e.1 = "_templateContext" then acc else setKeyJ acc e.1 e.2) base

/-- Translation of the data-merging block of `handleContextPage`: start
from the shared context data minus `_templateContext`, overlay per-page
data minus `_templateContext`, then write `_pages` and `_currentPath`. -/
def mergeRenderData (contextData pageData : List (String × GoVal))
    (nav : GoVal) (currentPath : String) : List (String × GoVal) :=
  let d0 := copySkippingTC [] contextData
  let d1 := copySkippingTC d0 pageData
  let d2 := setKeyJ d1 "_pages" nav
  setKeyJ d2 "_currentPath" (GoVal.vString currentPath)

/-! ## Error propagation in analysis and rendering
(analyzer.go 129-149 `Analyze` / `analyzeFile`, renderer.go 322-349 and
407-422 `Render` / `loadSpecificTemplates`)

The Go template parser is abstracted: a `FileSpec` oracle states, per
path, whether `os.ReadFile` succeeds and whether parsing succeeds, and
which named definitions the file contributes on success. -/

structure FileSpec where
  readable : Bool
  parses : Bool
  defs : List String
deriving DecidableEq, Repr

def fileOK (fs : String → FileSpec) (f : String) : Prop :=
  (fs f).readable = true ∧ (fs f).parses = true

instance (fs : String → FileSpec) (f : String) : Decidable (fileOK fs f) := by
  unfold fileOK; infer_instance

/-- One `analyzeFile` call (seen-check handled by the caller): a read
failure or parse failure is an error; otherwise the file's definitions
are returned. -/
def analyzeFile1 (fs : String → FileSpec) (f : String) :
    Except String (List String) :=
  if (fs f).readable = false then .error ("read error: " ++ f)
  else if (fs f).parses = false then .error ("parse error in " ++ f)
  else .ok (fs f).defs

/-- One iteration of `Analyze`'s include-list loop: already-seen files
are skipped (`a.seenFiles`); a failing file is marked seen and warned
about; a succeeding file contributes its definitions.  The accumulator
is `(seen, defs, warnings)`. -/
def aggStep (fs : String → FileSpec)
    (acc : List String × List String × List String) (f : String) :
    List String × List String × List String :=
  if f ∈ acc.1 then acc
  else
    match analyzeFile1 fs f with
    | .error _ => (f :: acc.1, acc.2.1, acc.2.2 ++ [f])
    | .ok fdefs => (f :: acc.1, acc.2.1 ++ fdefs, acc.2.2)

/-- Aggregate analysis over the entry file and an explicit include list,
mirroring `Analyze`: an entry failure fails the call; a failure on an
included file appends a warning (`Fprintf` to stderr) and continues.
Returns the accumulated definitions and the warned-about files. -/
def analyzeAggregate (fs : String → FileSpec) (entry : String)
    (files : List String) : Except String (List String × List String) :=
  match analyzeFile1 fs entry with
  | .error e => .error e
  | .ok entryDefs =>
      let final := files.foldl (aggStep fs) ([entry], entryDefs, [])
      .ok (final.2.1, final.2.2)

/-- Translation of `loadSpecificTemplates`: the first include that fails
to read or parse aborts the whole load with an error citing that file. -/
def loadSpecificTemplates (fs : String → FileSpec) :
    List String → Except String Unit
  | [] => .ok ()
  | f :: rest =>
      if (fs f).readable = false then .error ("failed to read " ++ f)
      else if (fs f).parses = false then .error ("failed to parse " ++ f)
      else loadSpecificTemplates fs rest

/-- The load phase of `Render` with an explicit include list: includes
first (`loadSpecificTemplates`), then the entry file. -/
def renderLoad (fs : String → FileSpec) (entry : String)
    (files : List String) : Except String Unit :=
  match loadSpecificTemplates fs files with
  | .error e => .error e
  | .ok _ =>
      if (fs entry).readable = false then .error ("read error: " ++ entry)
      else if (fs entry).parses = false then .error ("parse error: " ++ entry)
      else .ok ()

/-! ## String utilities

Lean's built-in `startsWith` / `splitOn` / `trim` are opaque to kernel
reduction, so the Go string functions used by the analyzer are modelled
directly on character lists (Go operates on bytes; on the ASCII data
involved here the two agree). -/

def clStartsWith : List Char → List Char → Bool
  | _, [] => true
  | [], _ :: _ => false
  | c :: cs, d :: ds => (c = d) && clStartsWith cs ds

/-- Index of the first occurrence of `sub` (`strings.Index`), if any. -/
def clIndexOf : List Char → List Char → Option Nat
  | [], sub => if sub.isEmpty then some 0 else none
  | c :: cs, sub =>
      if clStartsWith (c :: cs) sub then some 0
      else (clIndexOf cs sub).map (fun i => i + 1)

/-- `strings.HasPrefix`. -/
def strStartsWith (s p : String) : Bool := clStartsWith s.data p.data

/-- `strings.Contains` (for the non-empty separators used here). -/
def containsSub (s sub : String) : Bool := (clIndexOf s.data sub.data).isSome

/-- The suffix of `s` after the first occurrence of `sub`
(`s[strings.Index(s, sub)+len(sub):]`, and `strings.SplitN(s, sub, 2)[1]`). -/
def afterFirstSub (s sub : String) : String :=
  match clIndexOf s.data sub.data with
  | some i => ⟨s.data.drop (i + sub.data.length)⟩
  | none => ""

/-- The prefix of `s` before the first occurrence of `sub`
(`strings.Split(s, sub)[0]`); the whole string when `sub` is absent. -/
def beforeFirstSub (s sub : String) : String :=
  match clIndexOf s.data sub.data with
  | some i => ⟨s.data.take i⟩
  | none => s

def isSpaceChar (c : Char) : Bool :=
  c = ' ' || c = '\t' || c = '\n' || c = '\r'

/-- `strings.TrimSpace` (restricted to ASCII whitespace). -/
def strTrim (s : String) : String :=
  ⟨((s.data.dropWhile isSpaceChar).reverse.dropWhile isSpaceChar).reverse⟩

def strTake (s : String) (n : Nat) : String := ⟨s.data.take n⟩

/-! ## HTMX attribute windows (analyzer.go 947-1024, `detectHtmx`)

For a match on (0-based) line `lineNum` the sibling attributes are sought
in `lines[contextStart:contextEnd]` with `contextStart = lineNum-3`
(clamped at 0) and `contextEnd = lineNum+4` (clamped at `len(lines)`).
Lines are modelled as Lean strings; clipping counts characters where Go
counts bytes (identical on ASCII input). -/

def contextWindow (lines : List String) (lineNum : Nat) : List String :=
  let contextStart := lineNum - 3
  let contextEnd := min (lineNum + 4) lines.length
  (lines.take contextEnd).drop contextStart

def joinedContext (lines : List String) (lineNum : Nat) : String :=
  String.intercalate " " (contextWindow lines lineNum)

/-- Context string of a hypermedia descriptor: the trimmed matching line,
clipped to 100 characters (97 plus `"..."`) when longer. -/
def htmxContextString (line : String) : String :=
  let t := strTrim line
  if 100 < t.length then (strTake t 97) ++ "..." else t

structure HtmxDep where
  attrType : String
  url : String
  target : String
  swap : String
  trigger : String
  filePath : String
  line : Nat
  context : String
deriving DecidableEq, Repr

/-- Descriptor built for one attribute match.  `extractAttr attr text`
abstracts the sibling-attribute regular expressions
(`hx-target\s*=\s*["']([^"']+)["']` and friends) applied to `text`. -/
def mkHtmxDep (extractAttr : String → String → Option String)
    (attr url fp : String) (lines : List String) (lineNum : Nat)
    (line : String) : HtmxDep :=
  { attrType := attr
    url := url
    target := (extractAttr "hx-target" (joinedContext lines lineNum)).getD ""
    swap := (extractAttr "hx-swap" (joinedContext lines lineNum)).getD ""
    trigger := (extractAttr "hx-trigger" (joinedContext lines lineNum)).getD ""
    filePath := fp
    line := lineNum + 1
    context := htmxContextString line }

/-! ## Template analyzer (analyzer.go)

Parse-tree argument and node shapes, following `text/template/parse`:
a pipe is a list of commands, a command a list of argument nodes.
`chainA` keeps the chain's base node and its field list (`ChainNode.Node`
and `ChainNode.Field`); `numA` carries `IsInt`/`Int64` and
`IsFloat`/`Float64` (the float payload as an exact rational).  Node kinds
the walker's type switch does not mention are collapsed into `textN` /
`dotA`.  The walker's accumulation of `TmplDef.Calls` and of the
dependency map is not modelled; no claim concerns them. -/

inductive TArg where
  | fieldA (idents : List String)
  | chainA (base : TArg) (fields : List String)
  | varA (idents : List String)
  | identA (name : String)
  | strA (text : String)
  | numA (isInt : Bool) (intVal : Int) (isFloat : Bool) (floatVal : ℚ)
  | pipeArg (cmds : List (List TArg))
  | dotA

inductive TNode where
  | listN (children : List TNode)
  | ifN (pipe : List (List TArg)) (body : TNode) (alt : Option TNode)
  | rangeN (pipe : List (List TArg)) (body : TNode) (alt : Option TNode)
  | withN (pipe : List (List TArg)) (body : TNode) (alt : Option TNode)
  | templateN (name : String) (pipe : List (List TArg))
  | actionN (pipe : List (List TArg))
  | branchN (pipe : List (List TArg)) (body : TNode) (alt : Option TNode)
  | textN

/-- Suggested example values (`Variable.Suggested`, an `interface{}` in
Go): absent, string, int64, bool, `map[string]interface{}{}`,
`[]map[string]interface{}{{}}`, or a list of collected string literals. -/
inductive SuggestedVal where
  | noneV
  | strV (s : String)
  | intV (i : Int)
  | boolV (b : Bool)
  | emptyObjV
  | objListV
  | strListV (l : List String)
deriving DecidableEq, Repr

structure Variable where
  path : String
  varType : String
  context : String
  filePath : String
  suggested : SuggestedVal
deriving DecidableEq, Repr

/-- Analyzer accumulation state: the variable map (keyed in Go by the
string `path + "::" + context`, here by the pair) and the
`rangeLiterals` map. -/
structure AnalyzerState where
  varsMap : List ((String × String) × Variable)
  rangeLiterals : List (String × List String)
deriving DecidableEq, Repr

def initState : AnalyzerState := ⟨[], []⟩

def keyString (k : String × String) : String := k.1 ++ "::" ++ k.2

def lookupVar (st : AnalyzerState) (path ctx : String) : Option Variable :=
  (st.varsMap.find? (fun e => e.1 = (path, ctx))).map (fun e => e.2)

def insertVarIfAbsent (st : AnalyzerState) (path ctx : String)
    (v : Variable) : AnalyzerState :=
  if (st.varsMap.find? (fun e => e.1 = (path, ctx))).isSome then st
  else ⟨st.varsMap ++ [((path, ctx), v)], st.rangeLiterals⟩

/-- Translation of `inferType` (analyzer.go 818-864). -/
def inferType (context path : String) : String :=
  if context = "eq-string" then "string"
  else if context = "range" then
    if containsSub path "[0]." then
      if containsSub (afterFirstSub path "[0].") "." then "object" else "string"
    else "string"
  else if context = "range-collection" then "array"
  else if context = "if" then "string"
  else if context = "with" then "string"
  else if context = "template" then
    if containsSub path "." then "string" else "object"
  else "string"

/-- Translation of `suggestValue` (analyzer.go 866-916); consults the
current variable map (keys as concatenated strings, as in Go) and the
collected range literals. -/
def suggestValue (st : AnalyzerState) (varType path : String) : SuggestedVal :=
  if varType = "array" then
    if st.varsMap.any (fun e => strStartsWith (keyString e.1) (path ++ "[0].")) then
      .objListV
    else
      match st.rangeLiterals.find? (fun e => e.1 = path) with
      | some e => if 0 < e.2.length then .strListV e.2 else .objListV
      | none => .objListV
  else if varType = "object" then .emptyObjV
  else if varType = "number" then .intV 0
  else if varType = "bool" then .boolV false
  else .strV ""

def getRangeLiterals (st : AnalyzerState) (path : String) : List String :=
  match st.rangeLiterals.find? (fun e => e.1 = path) with
  | some e => e.2
  | none => []

def setRangeLiterals (st : AnalyzerState) (path : String)
    (lits : List String) : AnalyzerState :=
  if (st.rangeLiterals.find? (fun e => e.1 = path)).isSome then
    ⟨st.varsMap, st.rangeLiterals.map (fun e => if e.1 = path then (path, lits) else e)⟩
  else ⟨st.varsMap, st.rangeLiterals ++ [(path, lits)]⟩

def appendRangeLiteral (st : AnalyzerState) (arrayPath lit : String) :
    AnalyzerState :=
  let lits := getRangeLiterals st arrayPath
  if lit ∈ lits then st else setRangeLiterals st arrayPath (lits ++ [lit])

/-- Translation of `extractLiteralsFromPipe`'s per-command body
(analyzer.go 784-816): string literals of `eq`/`ne` commands are
deposited, deduplicated, under the array path. -/
def extractLiteralsFromCmd (st : AnalyzerState) (arrayPath : String)
    (args : List TArg) : AnalyzerState :=
  match args with
  | TArg.identA n :: rest =>
      if n = "eq" ∨ n = "ne" then
        rest.foldl (fun acc a =>
          match a with
          | TArg.strA s => appendRangeLiteral acc arrayPath s
          | _ => acc) st
      else st
  | _ => st

def extractLiteralsFromPipe (st : AnalyzerState) (arrayPath : String)
    (cmds : List (List TArg)) : AnalyzerState :=
  cmds.foldl (fun acc c => extractLiteralsFromCmd acc arrayPath c) st

mutual

/-- Translation of `extractRangeLiterals` (analyzer.go 750-781): walks a
range body, collecting comparison literals, without descending into
nested ranges. -/
def extractRangeLiterals (st : AnalyzerState) (arrayPath : String) :
    TNode → AnalyzerState
  | .listN children => extractRangeLiteralsList st arrayPath children
  | .ifN pipe body alt =>
      extractRangeLiteralsOpt
        (extractRangeLiterals (extractLiteralsFromPipe st arrayPath pipe) arrayPath body)
        arrayPath alt
  | .actionN pipe => extractLiteralsFromPipe st arrayPath pipe
  | .branchN pipe body alt =>
      extractRangeLiteralsOpt
        (extractRangeLiterals (extractLiteralsFromPipe st arrayPath pipe) arrayPath body)
        arrayPath alt
  | .rangeN _ _ _ => st
  | _ => st

def extractRangeLiteralsList (st : AnalyzerState) (arrayPath : String) :
    List TNode → AnalyzerState
  | [] => st
  | n :: rest =>
      extractRangeLiteralsList (extractRangeLiterals st arrayPath n) arrayPath rest

def extractRangeLiteralsOpt (st : AnalyzerState) (arrayPath : String) :
    Option TNode → AnalyzerState
  | none => st
  | some n => extractRangeLiterals st arrayPath n

end

/-- First field argument of a range pipe, joined with dots (analyzer.go
356-369): scans commands in order, takes the first `FieldNode` with a
non-empty identifier list. -/
def firstFieldPathArgs : List TArg → String
  | [] => ""
  | TArg.fieldA idents :: rest =>
      if 0 < idents.length then String.intercalate "." idents
      else firstFieldPathArgs rest
  | _ :: rest => firstFieldPathArgs rest

def firstFieldPath : List (List TArg) → String
  | [] => ""
  | c :: cs =>
      let p := firstFieldPathArgs c
      if p ≠ "" then p else firstFieldPath cs

/-- `int64(f)` for the `IsFloat` case of a number literal: truncation
toward zero. -/
def truncRat (q : ℚ) : Int := Int.tdiv q.num (q.den : Int)

/-- Scope resolution shared by the comparison extractors: a `range:`
context prefixes the path with `<array>[0].`, a bare `range` context
discards the field, any other context keeps the path verbatim. -/
def resolveCompPath (context path : String) : Option String :=
  if strStartsWith context "range:" then some (context.drop 6 ++ "[0]." ++ path)
  else if context = "range" then none
  else some path

def insertPlainVar (st : AnalyzerState) (fp path context : String) :
    AnalyzerState :=
  let varType := inferType context path
  let suggested := suggestValue st varType path
  insertVarIfAbsent st path context ⟨path, varType, context, fp, suggested⟩

def insertVariableVars (st : AnalyzerState) (fp context : String) :
    List String → AnalyzerState
  | [] => st
  | ident :: rest =>
      insertVariableVars
        (insertVarIfAbsent st ("$" ++ ident) context
          ⟨"$" ++ ident, "variable", context, fp, .noneV⟩)
        fp context rest

def insertChainVar (st : AnalyzerState) (fp path : String) : AnalyzerState :=
  let varType := inferType "chain" path
  let suggested := suggestValue st varType path
  insertVarIfAbsent st path "chain" ⟨path, varType, "chain", fp, suggested⟩

/-- Field-insertion loop of `extractEqComparison` (analyzer.go 489-538). -/
def insertEqFields (st : AnalyzerState) (fp context : String)
    (isNumeric : Bool) (strs : List String) (nums : List Int) :
    List (List String) → AnalyzerState
  | [] => st
  | idents :: rest =>
      let path0 := String.intercalate "." idents
      if path0 = "" then insertEqFields st fp context isNumeric strs nums rest
      else
        match resolveCompPath context path0 with
        | none => insertEqFields st fp context isNumeric strs nums rest
        | some path =>
            let st2 :=
              if isNumeric then
                insertVarIfAbsent st path "eq-number"
                  ⟨path, "number", "eq-number", fp, .intV (nums.headD 0)⟩
              else
                insertVarIfAbsent st path "eq-string"
                  ⟨path, "string", "eq-string", fp, .strV (strs.headD "")⟩
            insertEqFields st2 fp context isNumeric strs nums rest

/-- Chain-insertion loop of `extractEqComparison` (analyzer.go 540-583):
chain paths are recorded without any scope prefix. -/
def insertEqChains (st : AnalyzerState) (fp : String) (isNumeric : Bool)
    (strs : List String) (nums : List Int) :
    List (List String) → AnalyzerState
  | [] => st
  | fields :: rest =>
      let st2 :=
        if 0 < fields.length then
          let path := String.intercalate "." fields
          if isNumeric then
            insertVarIfAbsent st path "eq-number"
              ⟨path, "number", "eq-number", fp, .intV (nums.headD 0)⟩
          else
            insertVarIfAbsent st path "eq-string"
              ⟨path, "string", "eq-string", fp, .strV (strs.headD "")⟩
        else st
      insertEqChains st2 fp isNumeric strs nums rest

/-- Field-insertion loop of `extractNumericComparison`
(analyzer.go 622-654). -/
def insertNumFields (st : AnalyzerState) (fp context : String)
    (nums : List Int) : List (List String) → AnalyzerState
  | [] => st
  | idents :: rest =>
      let path0 := String.intercalate "." idents
      if path0 = "" then insertNumFields st fp context nums rest
      else
        match resolveCompPath context path0 with
        | none => insertNumFields st fp context nums rest
        | some path =>
            insertNumFields
              (insertVarIfAbsent st path "gt-number"
                ⟨path, "number", "gt-number", fp, .intV (nums.headD 0)⟩)
              fp context nums rest

/-- Collector result of the comparison extractors' first pass: threaded
state (nested pipes are walked in place) plus the field identifier
lists, chain field lists, string literals and number literals, in
argument order. -/
structure CompCollect where
  st : AnalyzerState
  fields : List (List String)
  chains : List (List String)
  strs : List String
  nums : List Int

mutual

/-- Translation of `walkNode` (analyzer.go 333-424). -/
def walkNode (st : AnalyzerState) (fp context : String) : TNode → AnalyzerState
  | .listN children => walkNodeList st fp context children
  | .ifN pipe body alt =>
      walkNodeOpt (walkNode (walkPipe st fp context pipe) fp context body)
        fp context alt
  | .rangeN pipe body alt =>
      let arrayPath := firstFieldPath pipe
      let st1 := if arrayPath ≠ "" then extractRangeLiterals st arrayPath body else st
      let st2 := walkPipe st1 fp "range-collection" pipe
      let rangeContext := if arrayPath ≠ "" then "range:" ++ arrayPath else "range"
      walkNodeOpt (walkNode st2 fp rangeContext body) fp rangeContext alt
  | .withN pipe body alt =>
      walkNodeOpt (walkNode (walkPipe st fp "with" pipe) fp "with" body)
        fp "with" alt
  | .templateN _name pipe => walkPipe st fp "template" pipe
  | .actionN pipe => walkPipe st fp context pipe
  | .branchN pipe body alt =>
      walkNodeOpt (walkNode (walkPipe st fp "branch" pipe) fp context body)
        fp context alt
  | .textN => st
termination_by n => 4 * sizeOf n

def walkNodeList (st : AnalyzerState) (fp context : String) :
    List TNode → AnalyzerState
  | [] => st
  | n :: rest => walkNodeList (walkNode st fp context n) fp context rest
termination_by ns => 4 * sizeOf ns + 1

def walkNodeOpt (st : AnalyzerState) (fp context : String) :
    Option TNode → AnalyzerState
  | none => st
  | some n => walkNode st fp context n
termination_by o => 4 * sizeOf o + 1

/-- Translation of `walkPipe` (analyzer.go 426-454). -/
def walkPipe (st : AnalyzerState) (fp context : String) :
    List (List TArg) → AnalyzerState
  | [] => st
  | cmd :: rest => walkPipe (walkCmd st fp context cmd) fp context rest
termination_by cmds => 4 * sizeOf cmds + 1

def walkCmd (st : AnalyzerState) (fp context : String) (args : List TArg) :
    AnalyzerState :=
  if 3 ≤ args.length then
    match args with
    | TArg.identA n :: rest =>
        if n = "eq" ∨ n = "ne" then extractEqComparison st fp context rest
        else if n = "gt" ∨ n = "lt" ∨ n = "ge" ∨ n = "le" then
          extractNumericComparison st fp context rest
        else extractVarsArgs st fp context args
    | _ => extractVarsArgs st fp context args
  else extractVarsArgs st fp context args
termination_by 4 * sizeOf args + 3

def extractVarsArgs (st : AnalyzerState) (fp context : String) :
    List TArg → AnalyzerState
  | [] => st
  | a :: rest => extractVarsArgs (extractVariables st fp context a) fp context rest
termination_by as => 4 * sizeOf as + 1

def extractVarsCmds (st : AnalyzerState) (fp context : String) :
    List (List TArg) → AnalyzerState
  | [] => st
  | c :: cs => extractVarsCmds (extractVarsArgs st fp context c) fp context cs
termination_by cmds => 4 * sizeOf cmds + 2

/-- Translation of `extractVariables` (analyzer.go 666-746). -/
def extractVariables (st : AnalyzerState) (fp context : String) :
    TArg → AnalyzerState
  | .fieldA idents =>
      let path := String.intercalate "." idents
      if path = "" then st
      else if strStartsWith context "range:" then
        insertPlainVar st fp (context.drop 6 ++ "[0]." ++ path) "range"
      else if context = "range" then st
      else insertPlainVar st fp path context
  | .varA idents => insertVariableVars st fp context idents
  | .chainA base fields =>
      let st1 :=
        if 0 < fields.length then
          let path := String.intercalate "." fields
          if path ≠ "" then insertChainVar st fp path else st
        else st
      extractVariables st1 fp context base
  | .pipeArg cmds => extractVarsCmds st fp context cmds
  | _ => st
termination_by a => 4 * sizeOf a

/-- First pass of both comparison extractors: collect fields, chains and
literals; nested pipe arguments are recursively walked in place
(analyzer.go 464-483 and 604-620). -/
def collectCompArgs (st : AnalyzerState) (fp context : String) :
    List TArg → CompCollect
  | [] => ⟨st, [], [], [], []⟩
  | a :: rest =>
      match a with
      | TArg.fieldA idents =>
          let r := collectCompArgs st fp context rest
          ⟨r.st, idents :: r.fields, r.chains, r.strs, r.nums⟩
      | TArg.chainA _ fields =>
          let r := collectCompArgs st fp context rest
          ⟨r.st, r.fields, fields :: r.chains, r.strs, r.nums⟩
      | TArg.strA s =>
          let r := collectCompArgs st fp context rest
          ⟨r.st, r.fields, r.chains, s :: r.strs, r.nums⟩
      | TArg.numA isInt i isFloat f =>
          let r := collectCompArgs st fp context rest
          if isInt then ⟨r.st, r.fields, r.chains, r.strs, i :: r.nums⟩
          else if isFloat then ⟨r.st, r.fields, r.chains, r.strs, truncRat f :: r.nums⟩
          else r
      | TArg.pipeArg cmds =>
          collectCompArgs (walkPipe st fp context cmds) fp context rest
      | _ => collectCompArgs st fp context rest
termination_by as => 4 * sizeOf as + 1

/-- Final pass of `extractEqComparison` (analyzer.go 584-596): arguments
that are not fields, strings, chains or numbers go through the standard
extraction. -/
def extractRemainingEq (st : AnalyzerState) (fp context : String) :
    List TArg → AnalyzerState
  | [] => st
  | a :: rest =>
      match a with
      | TArg.fieldA _ => extractRemainingEq st fp context rest
      | TArg.strA _ => extractRemainingEq st fp context rest
      | TArg.chainA _ _ => extractRemainingEq st fp context rest
      | TArg.numA _ _ _ _ => extractRemainingEq st fp context rest
      | _ => extractRemainingEq (extractVariables st fp context a) fp context rest
termination_by as => 4 * sizeOf as + 1

/-- Final pass of `extractNumericComparison` (analyzer.go 656-664):
arguments that are not fields or numbers go through the standard
extraction. -/
def extractRemainingNum (st : AnalyzerState) (fp context : String) :
    List TArg → AnalyzerState
  | [] => st
  | a :: rest =>
      match a with
      | TArg.fieldA _ => extractRemainingNum st fp context rest
      | TArg.numA _ _ _ _ => extractRemainingNum st fp context rest
      | _ => extractRemainingNum (extractVariables st fp context a) fp context rest
termination_by as => 4 * sizeOf as + 1

/-- Translation of `extractEqComparison` (analyzer.go 458-596),
applied to the arguments after the `eq`/`ne` identifier. -/
def extractEqComparison (st : AnalyzerState) (fp context : String)
    (args : List TArg) : AnalyzerState :=
  let r := collectCompArgs st fp context args
  let isNumeric := decide (r.nums ≠ []) && decide (r.strs = [])
  let st2 := insertEqFields r.st fp context isNumeric r.strs r.nums r.fields
  let st3 := insertEqChains st2 fp isNumeric r.strs r.nums r.chains
  extractRemainingEq st3 fp context args
termination_by 4 * sizeOf args + 2

/-- Translation of `extractNumericComparison` (analyzer.go 600-664),
applied to the arguments after the `gt`/`lt`/`ge`/`le` identifier. -/
def extractNumericComparison (st : AnalyzerState) (fp context : String)
    (args : List TArg) : AnalyzerState :=
  let r := collectCompArgs st fp context args
  let st2 := insertNumFields r.st fp context r.nums r.fields
  extractRemainingNum st2 fp context args
termination_by 4 * sizeOf args + 2

end

/-- State accumulated by walking one parsed definition body with the
empty starting scope (as `Analyze`/`analyzeFile` do per template). -/
def analyzerStateOf (fp : String) (root : TNode) : AnalyzerState :=
  walkNode initState fp "" root

/-- The accumulated variable descriptors, in insertion order
(the values of `a.variables`). -/
def varsOf (fp : String) (root : TNode) : List Variable :=
  (analyzerStateOf fp root).varsMap.map (fun e => e.2)

/-! ### Result finalisation (analyzer.go 151-265, `Analyze`) -/

/-- The context priority table (analyzer.go 181-192); unknown contexts get
the Go zero value 0. -/
def priorityContexts (c : String) : Nat :=
  if c = "eq-number" then 10
  else if c = "gt-number" then 10
  else if c = "eq-string" then 9
  else if c = "range-collection" then 8
  else if c = "range" then 5
  else if c = "if" then 3
  else if c = "with" then 3
  else if c = "template" then 2
  else if c = "chain" then 1
  else 0

def pushUniq (l : List String) (s : String) : List String :=
  if s ∈ l then l else l ++ [s]

/-- First collection pass of `Analyze` (analyzer.go 156-175): array item
field names (the part after the first `[0].`) and array names (the part
before the first `[0]`, or the whole path of an array-typed variable). -/
def buildItemFieldsAndNames (vs : List Variable) : List String × List String :=
  vs.foldl (fun acc v =>
    if containsSub v.path "[0]." then
      let aif := pushUniq acc.1 (afterFirstSub v.path "[0].")
      let arrName := beforeFirstSub v.path "[0]"
      let an := if arrName ≠ "" then pushUniq acc.2 arrName else acc.2
      (aif, an)
    else if v.varType = "array" then (acc.1, pushUniq acc.2 v.path)
    else acc) ([], [])

/-- One step of the `pathToVar` deduplication (analyzer.go 194-208): first
descriptor for a path wins unless a later one has strictly higher
context priority. -/
def insertDedup (m : List Variable) (v : Variable) : List Variable :=
  match m.find? (fun e => e.path = v.path) with
  | none => m ++ [v]
  | some e =>
      if priorityContexts e.context < priorityContexts v.context then
        m.map (fun e2 => if e2.path = v.path then v else e2)
      else m

def dedupVars (vs : List Variable) : List Variable := vs.foldl insertDedup []

/-- Suggested-value recomputation (analyzer.go 210-227): arrays with known
item fields get `[]map[string]interface{}{{}}`. -/
def recalcArrays (m : List Variable) : List Variable :=
  m.map (fun v =>
    if v.varType = "array" && m.any (fun o => strStartsWith o.path (v.path ++ "[0].")) then
      ⟨v.path, v.varType, v.context, v.filePath, .objListV⟩
    else v)

/-- Redundancy test of the final collection loop (analyzer.go 229-265). -/
def shouldSkip (aif an : List String) (v : Variable) : Bool :=
  if v.context = "range-collection" && v.varType = "array" then false
  else if !containsSub v.path "[0]." && !containsSub v.path "." then
    decide (v.path ∈ aif)
    || (decide (v.path ∈ an) && (v.varType = "array")
        && !(aif.any (fun f => strStartsWith f (v.path ++ "[0].") || f = v.path)))
  else false

def skipRedundant (aif an : List String) (m : List Variable) : List Variable :=
  m.filter (fun v => !shouldSkip aif an v)

/-- The variable list of the analysis result, as produced from the
accumulated descriptors by `Analyze`: dedup by path with context
priority, recompute array suggestions, drop redundant descriptors. -/
def finalizeVariables (vs : List Variable) : List Variable :=
  let acc := buildItemFieldsAndNames vs
  skipRedundant acc.1 acc.2 (recalcArrays (dedupVars vs))

/-- Variables of the final analysis result for a single walked
definition body. -/
def analyzeVars (fp : String) (root : TNode) : List Variable :=
  finalizeVariables (varsOf fp root)

/-! ### Occurrence predicate for eq/ne-with-number-literal comparisons

`occNode context X L root` holds when the walk of `root` under `context`
reaches an `eq`/`ne` command (at a position where `walkPipe` applies the
comparison treatment, i.e. a top-level pipe command with at least three
argument nodes, or such a command inside a nested pipe argument of a
comparison) whose arguments contain a field resolving to path `X`, at
least the number literal `L`, and no string literal. -/

def collectStrsPure : List TArg → List String
  | [] => []
  | TArg.strA s :: rest => s :: collectStrsPure rest
  | _ :: rest => collectStrsPure rest

def collectNumsPure : List TArg → List Int
  | [] => []
  | TArg.numA isInt i isFloat f :: rest =>
      if isInt then i :: collectNumsPure rest
      else if isFloat then truncRat f :: collectNumsPure rest
      else collectNumsPure rest
  | _ :: rest => collectNumsPure rest

mutual

def occNode (context X : String) (L : Int) : TNode → Bool
  | .listN children => occNodeList context X L children
  | .ifN pipe body alt =>
      occPipe context X L pipe || occNode context X L body || occNodeOpt context X L alt
  | .rangeN pipe body alt =>
      let arrayPath := firstFieldPath pipe
      let rc := if arrayPath ≠ "" then "range:" ++ arrayPath else "range"
      occPipe "range-collection" X L pipe || occNode rc X L body || occNodeOpt rc X L alt
  | .withN pipe body alt =>
      occPipe "with" X L pipe || occNode "with" X L body || occNodeOpt "with" X L alt
  | .templateN _ pipe => occPipe "template" X L pipe
  | .actionN pipe => occPipe context X L pipe
  | .branchN pipe body alt =>
      occPipe "branch" X L pipe || occNode context X L body || occNodeOpt context X L alt
  | .textN => false
termination_by n => 4 * sizeOf n

def occNodeList (context X : String) (L : Int) : List TNode → Bool
  | [] => false
  | n :: rest => occNode context X L n || occNodeList context X L rest
termination_by ns => 4 * sizeOf ns + 1

def occNodeOpt (context X : String) (L : Int) : Option TNode → Bool
  | none => false
  | some n => occNode context X L n
termination_by o => 4 * sizeOf o + 1

def occPipe (context X : String) (L : Int) : List (List TArg) → Bool
  | [] => false
  | c :: cs => occCmd context X L c || occPipe context X L cs
termination_by cmds => 4 * sizeOf cmds + 1

def occCmd (context X : String) (L : Int) (args : List TArg) : Bool :=
  if 3 ≤ args.length then
    match args with
    | TArg.identA n :: rest =>
        if n = "eq" ∨ n = "ne" then
          (decide (collectStrsPure rest = []) && decide (L ∈ collectNumsPure rest)
            && rest.any (fun a =>
                match a with
                | TArg.fieldA idents =>
                    decide (String.intercalate "." idents ≠ "")
                    && decide (resolveCompPath context (String.intercalate "." idents) = some X)
                | _ => false))
          || occArgsPipes context X L rest
        else if n = "gt" ∨ n = "lt" ∨ n = "ge" ∨ n = "le" then
          occArgsPipes context X L rest
        else false
    | _ => false
  else false
termination_by 4 * sizeOf args + 3

def occArgsPipes (context X : String) (L : Int) : List TArg → Bool
  | [] => false
  | TArg.pipeArg cmds :: rest =>
      occPipe context X L cmds || occArgsPipes context X L rest
  | _ :: rest => occArgsPipes context X L rest
termination_by as => 4 * sizeOf as + 2

end

/-! ## Concrete inputs used in counterexamples and witnesses -/

/-- Template body with two `eq`-with-number comparisons on the same
field, `{{if eq .X 1}}…{{end}}{{if eq .X 2}}…{{end}}`. -/
def twoEqTree : TNode :=
  .listN
    [ .ifN [[.identA "eq", .fieldA ["X"], .numA true 1 true 1]] .textN none,
      .ifN [[.identA "eq", .fieldA ["X"], .numA true 2 true 2]] .textN none ]

/-- Template body with a single comparison `{{if eq .Count 7}}…{{end}}`. -/
def oneEqTree : TNode :=
  .listN [ .ifN [[.identA "eq", .fieldA ["Count"], .numA true 7 true 7]] .textN none ]

/-- Nine numbered source lines, for exercising the HTMX context window. -/
def nineLines : List String :=
  ["l0", "l1", "l2", "l3", "l4", "l5", "l6", "l7", "l8"]

/-- File-system oracle with one unparsable file, for exercising the
error-handling paths. -/
def fsDemoC6 : String → FileSpec :=
  fun f => if f = "bad.html" then ⟨true, false, []⟩ else ⟨true, true, ["content"]⟩

end GTV

namespace GTV

/-- Lookup preservation between analyzer states: every variable-map entry
visible before a walk step is still visible, unchanged, afterwards
(`insertVarIfAbsent` never overwrites). -/
def keepsVars (s t : AnalyzerState) : Prop :=
  ∀ p c v, lookupVar s p c = some v → lookupVar t p c = some v

/-- Well-formedness of the accumulated variable map: every entry is keyed
by its own path and context, and the comparison contexts carry
number-typed descriptors with integer suggested values. -/
def wfVars (st : AnalyzerState) : Prop :=
  ∀ k v, (k, v) ∈ st.varsMap → v.path = k.1 ∧ v.context = k.2 ∧
    ((k.2 = "eq-number" ∨ k.2 = "gt-number") →
      v.varType = "number" ∧ ∃ m, v.suggested = SuggestedVal.intV m)

/-- Concrete input for the finalize invariant: two descriptors on the same
path, chain-context then eq-number-context. -/
def cexChain : Variable := ⟨"X", "string", "chain", "f", .noneV⟩

def cexEqNum : Variable := ⟨"X", "number", "eq-number", "f", .intV 1⟩

/-! # Theorems -/

/-! ### Generic association-list and fold lemmas -/

theorem deepEqualMap_cons (e : String × GoVal) (rest bs : List (String × GoVal)) :
    deepEqualMap (e :: rest) bs =
      ((match lookupGo e.1 bs with
        | some w => deepEqual e.2 w
        | none => false) && deepEqualMap rest bs) := by
  rw [deepEqualMap]
  rcases h : lookupGo e.1 bs with _ | w <;> simp [h]

/-! ### C1: the `serve` subcommand -/

/-- C1: the claim says `serve -config <json>` starts the development
server and emits `SERVE_READY|port=<n>`; but the command switch of
`main` has no `serve` case, so the invocation falls through to the
default branch (`Unknown command: serve`) and exits 1 without ever
reaching `runServe`/`DevServer.start`.  This theorem evaluates the CLI
dispatch at the claim's input. -/
theorem serve_command_unhandled_C1 : ∀ prog cfg : String,
    mainDispatch [prog, "serve", "-config", cfg] = .unknownCommand "serve" ∧
    cliExitCode (mainDispatch [prog, "serve", "-config", cfg]) = 1 := by
  intro prog cfg
  constructor <;> rfl

/-! ### C2: flexible comparison predicates -/

theorem isNumericSpec_eq_isSome (a : GoVal) :
    isNumericSpec a = (toFloat64 a).isSome := by
  cases a <;> rfl

theorem numValSpec_of_toFloat64 (a : GoVal) (qa : ℚ) (h : toFloat64 a = some qa) :
    numValSpec a = qa := by
  cases a <;> simp_all [toFloat64, numValSpec]

theorem deepEqual_strings (a b : GoVal) (ha : isStringSpec a = true)
    (hb : isStringSpec b = true) :
    deepEqual a b = (strValSpec a == strValSpec b) := by
  cases a <;> simp [isStringSpec] at ha
  cases b <;> simp [isStringSpec] at hb
  simp [deepEqual, strValSpec]

theorem strMatchChar (f : String → String → Bool) (a b : GoVal) :
    (match a, b with
      | GoVal.vString s, GoVal.vString t => f s t
      | _, _ => false)
    = (if isStringSpec a && isStringSpec b then f (strValSpec a) (strValSpec b)
       else false) := by
  cases a <;> cases b <;> rfl

theorem flexEq_eq_specEq (a b : GoVal) : flexibleEq a b = specEq a b := by
  rcases hA : toFloat64 a with _ | qa <;> rcases hB : toFloat64 b with _ | qb
  · have hna : isNumericSpec a = false := by rw [isNumericSpec_eq_isSome, hA]; rfl
    rcases hsa : isStringSpec a <;> rcases hsb : isStringSpec b
    all_goals simp [flexibleEq, specEq, hA, hB, hna, hsa, hsb]
    exact deepEqual_strings a b hsa hsb
  · have hna : isNumericSpec a = false := by rw [isNumericSpec_eq_isSome, hA]; rfl
    rcases hsa : isStringSpec a <;> rcases hsb : isStringSpec b
    all_goals simp [flexibleEq, specEq, hA, hB, hna, hsa, hsb]
    exact deepEqual_strings a b hsa hsb
  · have hnb : isNumericSpec b = false := by rw [isNumericSpec_eq_isSome, hB]; rfl
    rcases hsa : isStringSpec a <;> rcases hsb : isStringSpec b
    all_goals simp [flexibleEq, specEq, hA, hB, hnb, hsa, hsb]
    exact deepEqual_strings a b hsa hsb
  · have hna : isNumericSpec a = true := by rw [isNumericSpec_eq_isSome, hA]; rfl
    have hnb : isNumericSpec b = true := by rw [isNumericSpec_eq_isSome, hB]; rfl
    simp [flexibleEq, specEq, hA, hB, hna, hnb,
      numValSpec_of_toFloat64 a qa hA, numValSpec_of_toFloat64 b qb hB]

theorem flexLt_eq_specLt (a b : GoVal) : flexibleLt a b = specLt a b := by
  rcases hA : toFloat64 a with _ | qa <;> rcases hB : toFloat64 b with _ | qb
  · have hna : isNumericSpec a = false := by rw [isNumericSpec_eq_isSome, hA]; rfl
    simp only [flexibleLt, hA, hB]
    rw [strMatchChar strLt a b]
    simp [specLt, hna]
  · have hna : isNumericSpec a = false := by rw [isNumericSpec_eq_isSome, hA]; rfl
    simp only [flexibleLt, hA, hB]
    rw [strMatchChar strLt a b]
    simp [specLt, hna]
  · have hnb : isNumericSpec b = false := by rw [isNumericSpec_eq_isSome, hB]; rfl
    simp only [flexibleLt, hA, hB]
    rw [strMatchChar strLt a b]
    simp [specLt, hnb]
  · have hna : isNumericSpec a = true := by rw [isNumericSpec_eq_isSome, hA]; rfl
    have hnb : isNumericSpec b = true := by rw [isNumericSpec_eq_isSome, hB]; rfl
    simp [flexibleLt, specLt, hA, hB, hna, hnb,
      numValSpec_of_toFloat64 a qa hA, numValSpec_of_toFloat64 b qb hB]

theorem flexLe_eq_specLe (a b : GoVal) : flexibleLe a b = specLe a b := by
  rcases hA : toFloat64 a with _ | qa <;> rcases hB : toFloat64 b with _ | qb
  · have hna : isNumericSpec a = false := by rw [isNumericSpec_eq_isSome, hA]; rfl
    simp only [flexibleLe, hA, hB]
    rw [strMatchChar strLe a b]
    simp [specLe, hna]
  · have hna : isNumericSpec a = false := by rw [isNumericSpec_eq_isSome, hA]; rfl
    simp only [flexibleLe, hA, hB]
    rw [strMatchChar strLe a b]
    simp [specLe, hna]
  · have hnb : isNumericSpec b = false := by rw [isNumericSpec_eq_isSome, hB]; rfl
    simp only [flexibleLe, hA, hB]
    rw [strMatchChar strLe a b]
    simp [specLe, hnb]
  · have hna : isNumericSpec a = true := by rw [isNumericSpec_eq_isSome, hA]; rfl
    have hnb : isNumericSpec b = true := by rw [isNumericSpec_eq_isSome, hB]; rfl
    simp [flexibleLe, specLe, hA, hB, hna, hnb,
      numValSpec_of_toFloat64 a qa hA, numValSpec_of_toFloat64 b qb hB]

theorem flexGt_eq_specGt (a b : GoVal) : flexibleGt a b = specGt a b := by
  rcases hA : toFloat64 a with _ | qa <;> rcases hB : toFloat64 b with _ | qb
  · have hna : isNumericSpec a = false := by rw [isNumericSpec_eq_isSome, hA]; rfl
    simp only [flexibleGt, hA, hB]
    rw [strMatchChar (fun s t => strLt t s) a b]
    simp [specGt, hna]
  · have hna : isNumericSpec a = false := by rw [isNumericSpec_eq_isSome, hA]; rfl
    simp only [flexibleGt, hA, hB]
    rw [strMatchChar (fun s t => strLt t s) a b]
    simp [specGt, hna]
  · have hnb : isNumericSpec b = false := by rw [isNumericSpec_eq_isSome, hB]; rfl
    simp only [flexibleGt, hA, hB]
    rw [strMatchChar (fun s t => strLt t s) a b]
    simp [specGt, hnb]
  · have hna : isNumericSpec a = true := by rw [isNumericSpec_eq_isSome, hA]; rfl
    have hnb : isNumericSpec b = true := by rw [isNumericSpec_eq_isSome, hB]; rfl
    simp [flexibleGt, specGt, hA, hB, hna, hnb,
      numValSpec_of_toFloat64 a qa hA, numValSpec_of_toFloat64 b qb hB]

theorem flexGe_eq_specGe (a b : GoVal) : flexibleGe a b = specGe a b := by
  rcases hA : toFloat64 a with _ | qa <;> rcases hB : toFloat64 b with _ | qb
  · have hna : isNumericSpec a = false := by rw [isNumericSpec_eq_isSome, hA]; rfl
    simp only [flexibleGe, hA, hB]
    rw [strMatchChar (fun s t => strLe t s) a b]
    simp [specGe, hna]
  · have hna : isNumericSpec a = false := by rw [isNumericSpec_eq_isSome, hA]; rfl
    simp only [flexibleGe, hA, hB]
    rw [strMatchChar (fun s t => strLe t s) a b]
    simp [specGe, hna]
  · have hnb : isNumericSpec b = false := by rw [isNumericSpec_eq_isSome, hB]; rfl
    simp only [flexibleGe, hA, hB]
    rw [strMatchChar (fun s t => strLe t s) a b]
    simp [specGe, hnb]
  · have hna : isNumericSpec a = true := by rw [isNumericSpec_eq_isSome, hA]; rfl
    have hnb : isNumericSpec b = true := by rw [isNumericSpec_eq_isSome, hB]; rfl
    simp [flexibleGe, specGe, hA, hB, hna, hnb,
      numValSpec_of_toFloat64 a qa hA, numValSpec_of_toFloat64 b qb hB]

/-- C2: each of the six flexible predicates agrees everywhere with the
spec's three-rule description (numeric comparison as double precision
when both operands are numeric; lexicographic comparison when both are
strings; structural equality for `eq`/`ne` and `false` for the ordering
predicates otherwise), and the four spec examples hold. -/
theorem flexible_comparisons_C2 :
    (∀ a b, flexibleEq a b = specEq a b) ∧
    (∀ a b, flexibleNe a b = specNe a b) ∧
    (∀ a b, flexibleLt a b = specLt a b) ∧
    (∀ a b, flexibleLe a b = specLe a b) ∧
    (∀ a b, flexibleGt a b = specGt a b) ∧
    (∀ a b, flexibleGe a b = specGe a b) ∧
    flexibleEq (.vInt 1) (.vFloat64 1) = true ∧
    flexibleLt (.vString "a") (.vString "b") = true ∧
    flexibleGt (.vInt 2) (.vString "x") = false ∧
    flexibleEq (.vMap [("a", .vInt 1)]) (.vMap [("a", .vInt 1)]) = true := by
  refine ⟨flexEq_eq_specEq, ?_, flexLt_eq_specLt, flexLe_eq_specLe,
    flexGt_eq_specGt, flexGe_eq_specGe, ?_, ?_, ?_, ?_⟩
  · intro a b; simp [flexibleNe, specNe, flexEq_eq_specEq]
  · decide
  · decide
  · decide
  · simp [flexibleEq, toFloat64, deepEqual, deepEqualMap_cons, deepEqualMap,
      lookupGo, List.find?]

/-! ### C7: port acquisition -/

theorem listenLoop_finds (L : Nat → Bool) (p : Nat) :
    ∀ f k, f ≤ 10 → 10 - f < k → k ≤ 10 → L (p + k) = true →
    (∀ j, 10 - f < j → j < k → L (p + j) = false) →
    listenLoop L p f = some (p + k) := by
  intro f
  induction f with
  | zero => intro k _ h1 h2 _ _; omega
  | succ f ih =>
      intro k hf h1 h2 hk hmin
      by_cases hoff : L (p + (11 - (f + 1))) = true
      · have hek : 11 - (f + 1) = k := by
          by_contra hne
          have hlt : 11 - (f + 1) < k := by omega
          have hfalse := hmin (11 - (f + 1)) (by omega) hlt
          rw [hfalse] at hoff
          exact Bool.noConfusion hoff
        have h1110 : (11 : Nat) - (f + 1) = 10 - f := by omega
        rw [h1110] at hoff hek
        have hstep : listenLoop L p (f + 1) = some (p + (10 - f)) := by
          simp [listenLoop, hoff]
        rw [hstep, hek]
      · have hoff2 : L (p + (11 - (f + 1))) = false := by
          cases h : L (p + (11 - (f + 1)))
          · rfl
          · exact absurd h hoff
        have hkne : k ≠ 10 - f := by
          intro he
          have heq : 11 - (f + 1) = k := by omega
          rw [heq] at hoff2
          rw [hoff2] at hk
          exact Bool.noConfusion hk
        simp only [listenLoop, hoff2, Bool.false_eq_true, if_false]
        exact ih k (by omega) (by omega) h2 hk
          (fun j hj1 hj2 => hmin j (by omega) hj2)

theorem listenLoop_none_of (L : Nat → Bool) (p : Nat) :
    ∀ f, f ≤ 10 → (∀ j, 10 - f < j → j ≤ 10 → L (p + j) = false) →
    listenLoop L p f = none := by
  intro f
  induction f with
  | zero => intro _ _; rfl
  | succ f ih =>
      intro hf hall
      have hoff : L (p + (11 - (f + 1))) = false :=
        hall (11 - (f + 1)) (by omega) (by omega)
      simp only [listenLoop, hoff, Bool.false_eq_true, if_false]
      exact ih (by omega) (fun j hj1 hj2 => hall j (by omega) hj2)

theorem listenLoop_none_imp (L : Nat → Bool) (p : Nat) :
    ∀ f, f ≤ 10 → listenLoop L p f = none →
    ∀ j, 10 - f < j → j ≤ 10 → L (p + j) = false := by
  intro f
  induction f with
  | zero => intro _ _ j hj1 hj2; omega
  | succ f ih =>
      intro hf hnone j hj1 hj2
      rcases hoff : L (p + (11 - (f + 1))) with _ | _
      · simp only [listenLoop, hoff, Bool.false_eq_true, if_false] at hnone
        by_cases hje : j = 11 - (f + 1)
        · rw [hje]; exact hoff
        · exact ih (by omega) hnone j (by omega) hj2
      · simp only [listenLoop, hoff, if_true] at hnone
        exact Option.noConfusion hnone

/-- C7: the server first tries the configured port, then the ten
following ports in increasing order (taking the lowest available), then
an OS-assigned port, and returns an error exactly when every one of
these attempts fails. -/
theorem port_fallback_C7 (L : Nat → Bool) (osAssign : Option Nat) (pref : Nat) :
    (L pref = true → listenWithFallback L osAssign pref = .ok pref) ∧
    (∀ k, 1 ≤ k → k ≤ 10 → L pref = false →
      (∀ j, 1 ≤ j → j < k → L (pref + j) = false) → L (pref + k) = true →
      listenWithFallback L osAssign pref = .ok (pref + k)) ∧
    (L pref = false → (∀ k, 1 ≤ k → k ≤ 10 → L (pref + k) = false) →
      ∀ p, osAssign = some p → listenWithFallback L osAssign pref = .ok p) ∧
    ((∃ e, listenWithFallback L osAssign pref = .error e) ↔
      (L pref = false ∧ (∀ k, 1 ≤ k → k ≤ 10 → L (pref + k) = false) ∧
        osAssign = none)) := by
  refine ⟨?_, ?_, ?_, ?_⟩
  · intro h; simp [listenWithFallback, h]
  · intro k hk1 hk2 hp hmin hk
    have hloop := listenLoop_finds L pref 10 k (by omega) (by omega) hk2 hk
      (fun j hj1 hj2 => hmin j (by omega) hj2)
    simp [listenWithFallback, hp, hloop]
  · intro hp hall p hos
    have hloop := listenLoop_none_of L pref 10 (by omega)
      (fun j hj1 hj2 => hall j (by omega) hj2)
    simp [listenWithFallback, hp, hloop, hos]
  · constructor
    · rintro ⟨e, he⟩
      by_cases hp : L pref = true
      · simp [listenWithFallback, hp] at he
      · have hp2 : L pref = false := by
          cases h : L pref
          · rfl
          · exact absurd h hp
        refine ⟨hp2, ?_, ?_⟩
        · rcases hloop : listenLoop L pref 10 with _ | q
          · exact fun k hk1 hk2 =>
              listenLoop_none_imp L pref 10 (by omega) hloop k (by omega) hk2
          · simp [listenWithFallback, hp2, hloop] at he
        · rcases hloop : listenLoop L pref 10 with _ | q
          · rcases hos : osAssign with _ | p
            · rfl
            · simp [listenWithFallback, hp2, hloop, hos] at he
          · simp [listenWithFallback, hp2, hloop] at he
    · rintro ⟨hp, hall, hos⟩
      have hloop := listenLoop_none_of L pref 10 (by omega)
        (fun j hj1 hj2 => hall j (by omega) hj2)
      exact ⟨"no available port found", by simp [listenWithFallback, hp, hloop, hos]⟩

/-- C7 witness: port 3000 busy, 3001 free, the listener binds 3001. -/
theorem port_fallback_C7_witness :
    listenWithFallback (fun p => decide (p = 3001)) none 3000 = .ok 3001 :=
  (port_fallback_C7 (fun p => decide (p = 3001)) none 3000).2.1 1 (by decide)
    (by decide) (by decide) (fun j hj1 hj2 => by omega) (by decide)

/-! ### C10: div and mod helpers -/

/-- C10: the renderer's `div` and `mod` helpers are total: they return 0
when the divisor is 0, and otherwise the Go quotient (truncated toward
zero) and remainder (sign of the dividend); the quotient clause excludes
the single wrap-around case `minInt64 / -1`. -/
theorem div_mod_total_C10 : ∀ a b : Int,
    (goDiv a 0 = 0 ∧ goMod a 0 = 0) ∧
    (b ≠ 0 → inInt64Range a → inInt64Range b → ¬(a = int64Min ∧ b = -1) →
      goDiv a b = Int.tdiv a b ∧ goMod a b = Int.tmod a b) := by
  intro a b
  constructor
  · constructor <;> simp [goDiv, goMod]
  · intro hb ha hbr hexc
    have hmod : goMod a b = Int.tmod a b := by simp [goMod, hb]
    refine ⟨?_, hmod⟩
    have hna : (Int.tdiv a b).natAbs = a.natAbs / b.natAbs := Int.natAbs_tdiv a b
    have hble : a.natAbs / b.natAbs ≤ a.natAbs := Nat.div_le_self _ _
    have haa : a.natAbs ≤ 2 ^ 63 := by
      unfold inInt64Range int64Min int64Max at ha
      omega
    have hq : (Int.tdiv a b).natAbs ≤ 2 ^ 63 := by omega
    have hne : Int.tdiv a b ≠ 2 ^ 63 := by
      intro hcontra
      have h1 : (Int.tdiv a b).natAbs = 2 ^ 63 := by rw [hcontra]; rfl
      have h2 : a.natAbs = 2 ^ 63 := by omega
      have hbpos : 1 ≤ b.natAbs := by
        rcases Nat.eq_zero_or_pos b.natAbs with h | h
        · exfalso; exact hb (Int.natAbs_eq_zero.mp h)
        · omega
      have hb1 : b.natAbs = 1 := by
        rw [h2] at hna
        by_contra hb2
        have h3 : 2 ≤ b.natAbs := by omega
        have h4 : 2 ^ 63 / b.natAbs ≤ 2 ^ 63 / 2 := Nat.div_le_div_left h3 (by norm_num)
        omega
      have haval : a = int64Min := by
        unfold inInt64Range int64Min int64Max at ha
        unfold int64Min
        omega
      have hbval : b = 1 ∨ b = -1 := by omega
      rcases hbval with h | h
      · rw [h] at hcontra
        rw [Int.tdiv_one] at hcontra
        unfold inInt64Range int64Min int64Max at ha
        omega
      · exact hexc ⟨haval, h⟩
    have hrange : int64Min ≤ Int.tdiv a b ∧ Int.tdiv a b ≤ int64Max := by
      unfold int64Min int64Max
      omega
    simp only [goDiv, hb, if_false, wrapInt64]
    unfold int64Min int64Max at hrange
    omega

/-- C10 witness -/
theorem div_mod_total_C10_witness :
    goDiv 7 2 = Int.tdiv 7 2 ∧ goMod 7 2 = Int.tmod 7 2 :=
  (div_mod_total_C10 7 2).2 (by decide) (by decide) (by decide) (by decide)

end GTV


namespace GTV

/-! ### C6: parse and read error policy -/

theorem fileOK_of_ok {fs : String → FileSpec} {f : String} {d : List String}
    (hr : analyzeFile1 fs f = .ok d) : fileOK fs f ∧ (fs f).defs = d := by
  unfold analyzeFile1 at hr
  by_cases ha : (fs f).readable = false
  · rw [if_pos ha] at hr; exact absurd hr (by simp)
  · by_cases hb : (fs f).parses = false
    · rw [if_neg ha, if_pos hb] at hr; exact absurd hr (by simp)
    · rw [if_neg ha, if_neg hb] at hr
      refine ⟨⟨?_, ?_⟩, Except.ok.inj hr⟩
      · cases hc : (fs f).readable
        · exact absurd hc ha
        · rfl
      · cases hc : (fs f).parses
        · exact absurd hc hb
        · rfl

theorem analyzeFile1_err_of_bad {fs : String → FileSpec} {f : String}
    (h : ¬ fileOK fs f) : ∃ e, analyzeFile1 fs f = .error e := by
  unfold analyzeFile1
  by_cases ha : (fs f).readable = false
  · exact ⟨"read error: " ++ f, by rw [if_pos ha]⟩
  · by_cases hb : (fs f).parses = false
    · exact ⟨"parse error in " ++ f, by rw [if_neg ha, if_pos hb]⟩
    · exfalso
      apply h
      constructor
      · cases hc : (fs f).readable
        · exact absurd hc ha
        · rfl
      · cases hc : (fs f).parses
        · exact absurd hc hb
        · rfl

theorem aggStep_of_mem (fs : String → FileSpec)
    (acc : List String × List String × List String) (f : String)
    (hf : f ∈ acc.1) : aggStep fs acc f = acc := by
  unfold aggStep; rw [if_pos hf]

theorem aggStep_err (fs : String → FileSpec)
    (acc : List String × List String × List String) (f : String)
    (hf : f ∉ acc.1) {e : String} (hr : analyzeFile1 fs f = .error e) :
    aggStep fs acc f = (f :: acc.1, acc.2.1, acc.2.2 ++ [f]) := by
  unfold aggStep; rw [if_neg hf, hr]

theorem aggStep_ok (fs : String → FileSpec)
    (acc : List String × List String × List String) (f : String)
    (hf : f ∉ acc.1) {d : List String} (hr : analyzeFile1 fs f = .ok d) :
    aggStep fs acc f = (f :: acc.1, acc.2.1 ++ d, acc.2.2) := by
  unfold aggStep; rw [if_neg hf, hr]

theorem aggStep_seen_sub (fs : String → FileSpec)
    (acc : List String × List String × List String) (f g : String)
    (h : g ∈ acc.1) : g ∈ (aggStep fs acc f).1 := by
  by_cases hf : f ∈ acc.1
  · rw [aggStep_of_mem fs acc f hf]; exact h
  · rcases hr : analyzeFile1 fs f with e | d
    · rw [aggStep_err fs acc f hf hr]; exact List.mem_cons_of_mem f h
    · rw [aggStep_ok fs acc f hf hr]; exact List.mem_cons_of_mem f h

theorem aggStep_self_seen (fs : String → FileSpec)
    (acc : List String × List String × List String) (f : String) :
    f ∈ (aggStep fs acc f).1 := by
  by_cases hf : f ∈ acc.1
  · rw [aggStep_of_mem fs acc f hf]; exact hf
  · rcases hr : analyzeFile1 fs f with e | d
    · rw [aggStep_err fs acc f hf hr]; exact List.mem_cons_self f acc.1
    · rw [aggStep_ok fs acc f hf hr]; exact List.mem_cons_self f acc.1

theorem aggFold_seen_grows (fs : String → FileSpec) :
    ∀ (files : List String) (acc : List String × List String × List String)
      (g : String), g ∈ acc.1 → g ∈ (files.foldl (aggStep fs) acc).1 := by
  intro files
  induction files with
  | nil => intro acc g h; exact h
  | cons f rest ih =>
      intro acc g h
      rw [List.foldl_cons]
      exact ih _ g (aggStep_seen_sub fs acc f g h)

theorem aggFold_mem_seen (fs : String → FileSpec) :
    ∀ (files : List String) (acc : List String × List String × List String)
      (f : String), f ∈ files → f ∈ (files.foldl (aggStep fs) acc).1 := by
  intro files
  induction files with
  | nil => intro acc f h; exact absurd h (List.not_mem_nil f)
  | cons f0 rest ih =>
      intro acc f h
      rw [List.foldl_cons]
      rcases List.mem_cons.mp h with he | hr
      · subst he
        exact aggFold_seen_grows fs rest _ f (aggStep_self_seen fs acc f)
      · exact ih _ f hr

theorem aggFold_warns_inv (fs : String → FileSpec) (entry : String) :
    ∀ (files : List String) (acc : List String × List String × List String),
      (∀ g, g ∈ acc.1 → g = entry ∨ g ∈ acc.2.2 ∨ fileOK fs g) →
      (∀ g, g ∈ acc.2.2 → g ∈ (files.foldl (aggStep fs) acc).2.2) ∧
      (∀ g, g ∈ (files.foldl (aggStep fs) acc).1 →
        g = entry ∨ g ∈ (files.foldl (aggStep fs) acc).2.2 ∨ fileOK fs g) := by
  intro files
  induction files with
  | nil => intro acc hJ; exact ⟨fun g h => h, hJ⟩
  | cons f rest ih =>
      intro acc hJ
      rw [List.foldl_cons]
      have hstep : (∀ g, g ∈ acc.2.2 → g ∈ (aggStep fs acc f).2.2) ∧
          (∀ g, g ∈ (aggStep fs acc f).1 →
            g = entry ∨ g ∈ (aggStep fs acc f).2.2 ∨ fileOK fs g) := by
        by_cases hf : f ∈ acc.1
        · rw [aggStep_of_mem fs acc f hf]; exact ⟨fun g h => h, hJ⟩
        · rcases hr : analyzeFile1 fs f with e | d
          · rw [aggStep_err fs acc f hf hr]
            constructor
            · intro g h; exact List.mem_append_left _ h
            · intro g h
              rcases List.mem_cons.mp h with he | hm
              · subst he
                right; left
                exact List.mem_append_right _ (List.mem_singleton.mpr rfl)
              · rcases hJ g hm with h1 | h2 | h3
                · left; exact h1
                · right; left; exact List.mem_append_left _ h2
                · right; right; exact h3
          · rw [aggStep_ok fs acc f hf hr]
            constructor
            · intro g h; exact h
            · intro g h
              rcases List.mem_cons.mp h with he | hm
              · subst he
                right; right
                exact (fileOK_of_ok hr).1
              · exact hJ g hm
      obtain ⟨ihA, ihB⟩ := ih (aggStep fs acc f) hstep.2
      exact ⟨fun g h => ihA g (hstep.1 g h), ihB⟩

theorem aggFold_defs_inv (fs : String → FileSpec) :
    ∀ (files : List String) (acc : List String × List String × List String),
      ∀ d, d ∈ (files.foldl (aggStep fs) acc).2.1 →
        d ∈ acc.2.1 ∨ ∃ g, g ∈ files ∧ fileOK fs g ∧ d ∈ (fs g).defs := by
  intro files
  induction files with
  | nil => intro acc d h; left; exact h
  | cons f rest ih =>
      intro acc d h
      rw [List.foldl_cons] at h
      rcases ih (aggStep fs acc f) d h with h1 | ⟨g, hg1, hg2, hg3⟩
      · by_cases hf : f ∈ acc.1
        · rw [aggStep_of_mem fs acc f hf] at h1; left; exact h1
        · rcases hr : analyzeFile1 fs f with e | dd
          · rw [aggStep_err fs acc f hf hr] at h1; left; exact h1
          · rw [aggStep_ok fs acc f hf hr] at h1
            rcases List.mem_append.mp h1 with h2 | h3
            · left; exact h2
            · right
              obtain ⟨hok, hdefs⟩ := fileOK_of_ok hr
              exact ⟨f, List.mem_cons_self f rest, hok, by rw [hdefs]; exact h3⟩
      · right; exact ⟨g, List.mem_cons_of_mem f hg1, hg2, hg3⟩

theorem renderLoad_cites (fs : String → FileSpec) :
    ∀ (files : List String) (f : String), f ∈ files → ¬ fileOK fs f →
      ∃ g e, loadSpecificTemplates fs files = .error e ∧ g ∈ files ∧
        ¬ fileOK fs g ∧
        (e = "failed to read " ++ g ∨ e = "failed to parse " ++ g) := by
  intro files
  induction files with
  | nil => intro f h; exact fun _ => absurd h (List.not_mem_nil f)
  | cons f0 rest ih =>
      intro f hmem hbad
      by_cases ha : (fs f0).readable = false
      · refine ⟨f0, "failed to read " ++ f0, ?_, List.mem_cons_self f0 rest, ?_, Or.inl rfl⟩
        · unfold loadSpecificTemplates; rw [if_pos ha]
        · intro hok; rw [hok.1] at ha; exact Bool.noConfusion ha
      · by_cases hb : (fs f0).parses = false
        · refine ⟨f0, "failed to parse " ++ f0, ?_, List.mem_cons_self f0 rest, ?_, Or.inr rfl⟩
          · unfold loadSpecificTemplates; rw [if_neg ha, if_pos hb]
          · intro hok; rw [hok.2] at hb; exact Bool.noConfusion hb
        · have hok : fileOK fs f0 := by
            constructor
            · cases hc : (fs f0).readable
              · exact absurd hc ha
              · rfl
            · cases hc : (fs f0).parses
              · exact absurd hc hb
              · rfl
          have hfr : f ∈ rest := by
            rcases List.mem_cons.mp hmem with he | hr
            · subst he; exact absurd hok hbad
            · exact hr
          obtain ⟨g, e, h1, h2, h3, h4⟩ := ih f hfr hbad
          refine ⟨g, e, ?_, List.mem_cons_of_mem f0 h2, h3, h4⟩
          unfold loadSpecificTemplates
          rw [if_neg ha, if_neg hb]
          exact h1


end GTV

namespace GTV

theorem analyzeFile1_ok_of {fs : String → FileSpec} {f : String}
    (h : fileOK fs f) : analyzeFile1 fs f = .ok (fs f).defs := by
  unfold analyzeFile1
  rw [if_neg (by rw [h.1]; simp), if_neg (by rw [h.2]; simp)]

theorem loadSpecific_ok_of_all (fs : String → FileSpec) :
    ∀ files : List String, (∀ f, f ∈ files → fileOK fs f) →
    loadSpecificTemplates fs files = .ok () := by
  intro files
  induction files with
  | nil => intro _; rfl
  | cons f0 rest ih =>
      intro hall
      have hok := hall f0 (List.mem_cons_self f0 rest)
      unfold loadSpecificTemplates
      rw [if_neg (by rw [hok.1]; simp), if_neg (by rw [hok.2]; simp)]
      exact ih (fun f h => hall f (List.mem_cons_of_mem f0 h))

/-- C6 -/
theorem parse_error_policy_C6 (fs : String → FileSpec) (entry : String)
    (files : List String) :
    (¬ fileOK fs entry → ∃ e, analyzeAggregate fs entry files = .error e) ∧
    (fileOK fs entry →
      ∃ defs warns, analyzeAggregate fs entry files = .ok (defs, warns) ∧
        (∀ f, f ∈ files → f ≠ entry → ¬ fileOK fs f → f ∈ warns) ∧
        (∀ d, d ∈ defs →
          d ∈ (fs entry).defs ∨ ∃ g, g ∈ files ∧ fileOK fs g ∧ d ∈ (fs g).defs)) ∧
    (∀ f, f ∈ files → ¬ fileOK fs f →
      ∃ g e, renderLoad fs entry files = .error e ∧ g ∈ files ∧ ¬ fileOK fs g ∧
        (e = "failed to read " ++ g ∨ e = "failed to parse " ++ g)) ∧
    ((∀ f, f ∈ files → fileOK fs f) → ¬ fileOK fs entry →
      ∃ e, renderLoad fs entry files = .error e) := by
  refine ⟨?_, ?_, ?_, ?_⟩
  · intro hbad
    obtain ⟨e, he⟩ := analyzeFile1_err_of_bad hbad
    exact ⟨e, by unfold analyzeAggregate; rw [he]⟩
  · intro hok
    rcases hr : analyzeFile1 fs entry with e | entryDefs
    · rw [analyzeFile1_ok_of hok] at hr
      exact absurd hr (by simp)
    · obtain ⟨hok2, hdefs⟩ := fileOK_of_ok hr
      refine ⟨(files.foldl (aggStep fs) ([entry], entryDefs, [])).2.1,
        (files.foldl (aggStep fs) ([entry], entryDefs, [])).2.2, ?_, ?_, ?_⟩
      · unfold analyzeAggregate; rw [hr]
      · intro f hf hne hbad
        have hseen := aggFold_mem_seen fs files ([entry], entryDefs, []) f hf
        have hJ0 : ∀ g, g ∈ ([entry] : List String) →
            g = entry ∨ g ∈ ([] : List String) ∨ fileOK fs g := by
          intro g hg
          left
          exact List.mem_singleton.mp hg
        obtain ⟨_, hB⟩ := aggFold_warns_inv fs entry files ([entry], entryDefs, []) hJ0
        rcases hB f hseen with h1 | h2 | h3
        · exact absurd h1 hne
        · exact h2
        · exact absurd h3 hbad
      · intro d hd
        rcases aggFold_defs_inv fs files ([entry], entryDefs, []) d hd with h1 | h2
        · left; rw [hdefs]; exact h1
        · right; exact h2
  · intro f hf hbad
    obtain ⟨g, e, h1, h2, h3, h4⟩ := renderLoad_cites fs files f hf hbad
    exact ⟨g, e, by unfold renderLoad; rw [h1], h2, h3, h4⟩
  · intro hall hbad
    have hloadok : loadSpecificTemplates fs files = .ok () :=
      loadSpecific_ok_of_all fs files hall
    by_cases ha : (fs entry).readable = false
    · exact ⟨"read error: " ++ entry, by unfold renderLoad; rw [hloadok, if_pos ha]⟩
    · by_cases hb : (fs entry).parses = false
      · exact ⟨"parse error: " ++ entry, by
          unfold renderLoad; rw [hloadok, if_neg ha, if_pos hb]⟩
      · exfalso
        apply hbad
        constructor
        · cases hc : (fs entry).readable
          · exact absurd hc ha
          · rfl
        · cases hc : (fs entry).parses
          · exact absurd hc hb
          · rfl


/-- C6 witness: with one unparsable include, analysis of a bad entry
fails, and rendering with a bad include fails citing that file. -/
theorem parse_error_policy_C6_witness :
    (∃ e, analyzeAggregate fsDemoC6 "bad.html" [] = .error e) ∧
    (∃ g e, renderLoad fsDemoC6 "layout.html" ["page.html", "bad.html"] = .error e ∧
      g ∈ ["page.html", "bad.html"] ∧ ¬ fileOK fsDemoC6 g ∧
      (e = "failed to read " ++ g ∨ e = "failed to parse " ++ g)) :=
  ⟨(parse_error_policy_C6 fsDemoC6 "bad.html" []).1 (by decide),
   (parse_error_policy_C6 fsDemoC6 "layout.html" ["page.html", "bad.html"]).2.2.1
     "bad.html" (by decide) (by decide)⟩


end GTV

namespace GTV

theorem lookupGo_nil (k : String) : lookupGo k [] = none := rfl

theorem lookupGo_cons (k2 : String) (e : String × GoVal)
    (rest : List (String × GoVal)) :
    lookupGo k2 (e :: rest) = if e.1 = k2 then some e.2 else lookupGo k2 rest := by
  unfold lookupGo
  by_cases h : e.1 = k2
  · rw [List.find?_cons_of_pos _ (by simp [h])]
    simp [h]
  · rw [List.find?_cons_of_neg _ (by simp [h])]
    simp [h]

theorem lookupGo_eq_none_of_not_mem (k : String) :
    ∀ m : List (String × GoVal), k ∉ m.map Prod.fst → lookupGo k m = none := by
  intro m
  induction m with
  | nil => intro _; rfl
  | cons e rest ih =>
      intro h
      rw [lookupGo_cons]
      rw [List.map_cons, List.mem_cons] at h
      push_neg at h
      rw [if_neg (fun hc => h.1 hc.symm)]
      exact ih h.2

theorem lookupGo_map_update (k : String) (v : GoVal) (k2 : String) :
    ∀ m : List (String × GoVal),
      lookupGo k2 (m.map (fun e => if e.1 = k then (k, v) else e)) =
        if k2 = k then (if (lookupGo k m).isSome then some v else none)
        else lookupGo k2 m := by
  intro m
  induction m with
  | nil => by_cases h : k2 = k <;> simp [lookupGo_nil, h]
  | cons e rest ih =>
      rw [List.map_cons]
      by_cases hek : e.1 = k <;> by_cases h2 : k2 = k <;>
        by_cases he2 : e.1 = k2 <;>
        simp [lookupGo_cons, hek, h2, he2, ih] <;>
        simp_all

theorem lookupGo_append_single (k2 k : String) (v : GoVal) :
    ∀ m : List (String × GoVal),
      lookupGo k2 (m ++ [(k, v)]) =
        (match lookupGo k2 m with
         | some w => some w
         | none => if k = k2 then some v else none) := by
  intro m
  induction m with
  | nil =>
      rw [List.nil_append, lookupGo_cons, lookupGo_nil]
  | cons e rest ih =>
      rw [List.cons_append, lookupGo_cons, lookupGo_cons]
      by_cases he : e.1 = k2
      · rw [if_pos he, if_pos he]
      · rw [if_neg he, if_neg he, ih]

theorem lookupGo_setKeyJ (m : List (String × GoVal)) (k : String) (v : GoVal)
    (k2 : String) :
    lookupGo k2 (setKeyJ m k v) = if k2 = k then some v else lookupGo k2 m := by
  unfold setKeyJ
  rcases hf : m.find? (fun e => e.1 = k) with _ | w
  · have hnone : lookupGo k m = none := by unfold lookupGo; rw [hf]; rfl
    rw [if_neg (by rw [hf]; simp), lookupGo_append_single]
    by_cases h2 : k2 = k
    · subst h2
      rw [hnone]
    · have h2s : ¬ k = k2 := fun hc => h2 hc.symm
      rcases hl : lookupGo k2 m with _ | w2
      · simp [h2, h2s]
      · simp [h2]
  · have hsome : (lookupGo k m).isSome = true := by unfold lookupGo; rw [hf]; rfl
    rw [if_pos (by rw [hf]; rfl), lookupGo_map_update]
    by_cases h2 : k2 = k
    · rw [if_pos h2, if_pos hsome, if_pos h2]
    · rw [if_neg h2, if_neg h2]

theorem lookupGo_copy_tc (u : List (String × GoVal)) :
    ∀ b, lookupGo "_templateContext" (copySkippingTC b u) =
      lookupGo "_templateContext" b := by
  induction u with
  | nil => intro b; rfl
  | cons e rest ih =>
      intro b
      unfold copySkippingTC
      rw [List.foldl_cons]
      show lookupGo "_templateContext"
        (copySkippingTC (if e.1 = "_templateContext" then b else setKeyJ b e.1 e.2) rest) = _
      rw [ih]
      by_cases he : e.1 = "_templateContext"
      · rw [if_pos he]
      · rw [if_neg he, lookupGo_setKeyJ, if_neg (fun hc => he hc.symm)]

theorem lookupGo_copy (k2 : String) (hk2 : k2 ≠ "_templateContext") :
    ∀ (u : List (String × GoVal)), (u.map Prod.fst).Nodup →
    ∀ b, lookupGo k2 (copySkippingTC b u) =
      (match lookupGo k2 u with
       | some w => some w
       | none => lookupGo k2 b) := by
  intro u
  induction u with
  | nil => intro _ b; rfl
  | cons e rest ih =>
      intro hnd b
      rw [List.map_cons, List.nodup_cons] at hnd
      unfold copySkippingTC
      rw [List.foldl_cons]
      show lookupGo k2
        (copySkippingTC (if e.1 = "_templateContext" then b else setKeyJ b e.1 e.2) rest) = _
      rw [ih hnd.2, lookupGo_cons]
      by_cases he : e.1 = k2
      · have hetc : e.1 ≠ "_templateContext" := fun hc => hk2 (he ▸ hc)
        rw [if_pos he, if_neg hetc]
        have hrest : lookupGo k2 rest = none := by
          apply lookupGo_eq_none_of_not_mem
          intro hc
          exact hnd.1 (he ▸ hc)
        rw [hrest, lookupGo_setKeyJ, if_pos he.symm]
      · rw [if_neg he]
        by_cases hetc : e.1 = "_templateContext"
        · rw [if_pos hetc]
        · rw [if_neg hetc]
          rcases hl : lookupGo k2 rest with _ | w
          · rw [lookupGo_setKeyJ, if_neg (fun hc => he hc.symm)]
          · rfl

/-- C8 -/
theorem template_context_isolation_C8 :
    (∀ ctx page nav cur,
      lookupGo "_templateContext" (mergeRenderData ctx page nav cur) = none) ∧
    (∀ ctx ctx2 page page2 nav cur,
      (ctx.map Prod.fst).Nodup → (ctx2.map Prod.fst).Nodup →
      (page.map Prod.fst).Nodup → (page2.map Prod.fst).Nodup →
      (∀ k, k ≠ "_templateContext" → lookupGo k ctx = lookupGo k ctx2) →
      (∀ k, k ≠ "_templateContext" → lookupGo k page = lookupGo k page2) →
      ∀ k, lookupGo k (mergeRenderData ctx page nav cur) =
        lookupGo k (mergeRenderData ctx2 page2 nav cur)) := by
  constructor
  · intro ctx page nav cur
    unfold mergeRenderData
    rw [lookupGo_setKeyJ, if_neg (by decide), lookupGo_setKeyJ, if_neg (by decide),
      lookupGo_copy_tc, lookupGo_copy_tc, lookupGo_nil]
  · intro ctx ctx2 page page2 nav cur hn1 hn2 hn3 hn4 hctx hpage k
    unfold mergeRenderData
    simp only [lookupGo_setKeyJ]
    by_cases hcur : k = "_currentPath"
    · rw [if_pos hcur, if_pos hcur]
    · simp only [if_neg hcur]
      by_cases hpg : k = "_pages"
      · rw [if_pos hpg, if_pos hpg]
      · simp only [if_neg hpg]
        by_cases htc : k = "_templateContext"
        · subst htc
          rw [lookupGo_copy_tc, lookupGo_copy_tc, lookupGo_copy_tc, lookupGo_copy_tc]
        · rw [lookupGo_copy k htc page hn3, lookupGo_copy k htc page2 hn4,
            hpage k htc, lookupGo_copy k htc ctx hn1, lookupGo_copy k htc ctx2 hn2,
            hctx k htc]

/-- C8 witness: two context fixtures differing only in `_templateContext`
produce identical merged render data. -/
theorem template_context_isolation_C8_witness :
    lookupGo "user"
      (mergeRenderData [("_templateContext", GoVal.vInt 1), ("user", GoVal.vString "x")]
        [] GoVal.vNil "/") =
    lookupGo "user"
      (mergeRenderData [("_templateContext", GoVal.vInt 2), ("user", GoVal.vString "x")]
        [] GoVal.vNil "/") := by
  have h := template_context_isolation_C8.2
    [("_templateContext", GoVal.vInt 1), ("user", GoVal.vString "x")]
    [("_templateContext", GoVal.vInt 2), ("user", GoVal.vString "x")]
    [] [] GoVal.vNil "/" (by decide) (by decide) (by decide) (by decide)
    (fun k hk => by simp [lookupGo_cons, Ne.symm hk])
    (fun k hk => rfl)
  exact h "user"

end GTV

namespace GTV

theorem take_seven_getD (l : List String) (h : 7 ≤ l.length) :
    l.take 7 = [l.getD 0 "", l.getD 1 "", l.getD 2 "", l.getD 3 "",
      l.getD 4 "", l.getD 5 "", l.getD 6 ""] := by
  rcases l with _ | ⟨a, l⟩
  · simp at h
  rcases l with _ | ⟨b, l⟩
  · simp at h
  rcases l with _ | ⟨c, l⟩
  · simp at h
  rcases l with _ | ⟨d, l⟩
  · simp at h
  rcases l with _ | ⟨e, l⟩
  · simp at h
  rcases l with _ | ⟨f, l⟩
  · simp at h
  rcases l with _ | ⟨g, l⟩
  · simp at h
  rfl

theorem getD_drop_shift (l : List String) (m i : Nat) :
    (l.drop m).getD i "" = l.getD (m + i) "" := by
  simp [List.getD, List.getElem?_drop]

/-- C9 counterexample: at line 4 of a nine-line file the attribute window
is lines 1..7 - three lines above through three below - so line 8, the
fourth line below, is outside it although the file is long enough. -/
theorem htmx_window_C9_counterexample :
    contextWindow nineLines 4 = ["l1", "l2", "l3", "l4", "l5", "l6", "l7"] ∧
    "l8" ∉ contextWindow nineLines 4 ∧ 4 + 4 < nineLines.length := by
  refine ⟨?_, ?_, ?_⟩ <;> decide

/-- C9 (amended): the target, swap and trigger values of an emitted
hypermedia descriptor are extracted from the joined window of source
lines spanning three lines above through three lines below the matching
line (seven lines in the interior case), and its context string is the
trimmed matching source line clipped to at most 100 characters. -/
theorem htmx_window_C9_amended (lines : List String) (lineNum : Nat)
    (extractAttr : String → String → Option String) (attr url fp line : String) :
    (3 ≤ lineNum → lineNum + 4 ≤ lines.length →
      contextWindow lines lineNum =
        [lines.getD (lineNum - 3) "", lines.getD (lineNum - 2) "",
         lines.getD (lineNum - 1) "", lines.getD lineNum "",
         lines.getD (lineNum + 1) "", lines.getD (lineNum + 2) "",
         lines.getD (lineNum + 3) ""]) ∧
    (htmxContextString line).length ≤ 100 ∧
    (mkHtmxDep extractAttr attr url fp lines lineNum line).target
      = (extractAttr "hx-target" (joinedContext lines lineNum)).getD "" ∧
    (mkHtmxDep extractAttr attr url fp lines lineNum line).swap
      = (extractAttr "hx-swap" (joinedContext lines lineNum)).getD "" ∧
    (mkHtmxDep extractAttr attr url fp lines lineNum line).trigger
      = (extractAttr "hx-trigger" (joinedContext lines lineNum)).getD "" ∧
    (mkHtmxDep extractAttr attr url fp lines lineNum line).context
      = htmxContextString line := by
  refine ⟨?_, ?_, rfl, rfl, rfl, rfl⟩
  · intro h3 h4
    unfold contextWindow
    have hmin : min (lineNum + 4) lines.length = lineNum + 4 := by omega
    rw [hmin]
    have hdt : (lines.take (lineNum + 4)).drop (lineNum - 3) =
        (lines.drop (lineNum - 3)).take ((lineNum + 4) - (lineNum - 3)) :=
      List.drop_take (lineNum + 4) (lineNum - 3) lines
    have h7 : (lineNum + 4) - (lineNum - 3) = 7 := by omega
    rw [hdt, h7, take_seven_getD _ (by simp; omega)]
    rw [getD_drop_shift, getD_drop_shift, getD_drop_shift, getD_drop_shift,
      getD_drop_shift, getD_drop_shift, getD_drop_shift]
    have e0 : lineNum - 3 + 0 = lineNum - 3 := by omega
    have e1 : lineNum - 3 + 1 = lineNum - 2 := by omega
    have e2 : lineNum - 3 + 2 = lineNum - 1 := by omega
    have e3 : lineNum - 3 + 3 = lineNum := by omega
    have e4 : lineNum - 3 + 4 = lineNum + 1 := by omega
    have e5 : lineNum - 3 + 5 = lineNum + 2 := by omega
    have e6 : lineNum - 3 + 6 = lineNum + 3 := by omega
    rw [e0, e1, e2, e3, e4, e5, e6]
  · unfold htmxContextString
    by_cases h : 100 < (strTrim line).length
    · rw [if_pos h]
      unfold strTake
      have h1 : ((⟨(strTrim line).data.take 97⟩ : String) ++ "...").length =
          ((strTrim line).data.take 97).length + 3 := by
        rw [String.length_append]
        rfl
      rw [h1]
      have h2 : ((strTrim line).data.take 97).length ≤ 97 := by
        rw [List.length_take]
        omega
      omega
    · rw [if_neg h]
      omega

/-- C9 amended witness: the interior-window equation instantiated at the
nine-line file and line 4. -/
theorem htmx_window_C9_amended_witness :
    contextWindow nineLines 4 =
      [nineLines.getD 1 "", nineLines.getD 2 "", nineLines.getD 3 "",
       nineLines.getD 4 "", nineLines.getD 5 "", nineLines.getD 6 "",
       nineLines.getD 7 ""] :=
  (htmx_window_C9_amended nineLines 4 (fun _ _ => none) "hx-get" "/u" "f" "l").1
    (by decide) (by decide)

end GTV

namespace GTV

theorem nodup_map_inj {α β : Type} (f : α → β) :
    ∀ l : List α, (l.map f).Nodup →
      ∀ a, a ∈ l → ∀ b, b ∈ l → f a = f b → a = b := by
  intro l
  induction l with
  | nil => intro _ a ha; exact absurd ha (List.not_mem_nil a)
  | cons x rest ih =>
      intro hnd a ha b hb hfab
      rw [List.map_cons, List.nodup_cons] at hnd
      rcases List.mem_cons.mp ha with hax | har <;>
        rcases List.mem_cons.mp hb with hbx | hbr
      · rw [hax, hbx]
      · subst hax
        exfalso
        exact hnd.1 (hfab ▸ List.mem_map_of_mem f hbr)
      · subst hbx
        exfalso
        exact hnd.1 (hfab.symm ▸ List.mem_map_of_mem f har)
      · exact ih hnd.2 a har b hbr hfab

theorem insertDedup_nodup (acc : List Variable) (w : Variable)
    (h : (acc.map (fun v => v.path)).Nodup) :
    ((insertDedup acc w).map (fun v => v.path)).Nodup := by
  rcases hf : acc.find? (fun e => e.path = w.path) with _ | e
  · simp only [insertDedup, hf]
    have hno : ∀ e, e ∈ acc → ¬ (e.path = w.path) := by
      intro e he
      have := List.find?_eq_none.mp hf e he
      simpa using this
    rw [List.map_append]
    refine List.Nodup.append h (List.nodup_singleton _) ?_
    intro p hp hq
    simp only [List.map_cons, List.map_nil, List.mem_singleton] at hq
    subst hq
    obtain ⟨v, hv, hvp⟩ := List.mem_map.mp hp
    exact hno v hv hvp
  · simp only [insertDedup, hf]
    by_cases hp : priorityContexts e.context < priorityContexts w.context
    · rw [if_pos hp]
      have hpaths : (acc.map (fun v => if v.path = w.path then w else v)).map
          (fun v => v.path) = acc.map (fun v => v.path) := by
        rw [List.map_map]
        apply List.map_congr_left
        intro v hv
        by_cases hvp : v.path = w.path <;> simp [hvp]
      rw [hpaths]
      exact h
    · rw [if_neg hp]
      exact h

theorem insertDedup_mem (acc : List Variable) (w v : Variable)
    (h : v ∈ insertDedup acc w) : v ∈ acc ∨ v = w := by
  rcases hf : acc.find? (fun e => e.path = w.path) with _ | e <;>
    simp only [insertDedup, hf] at h
  · rcases List.mem_append.mp h with h1 | h2
    · left; exact h1
    · right; exact List.mem_singleton.mp h2
  · by_cases hp : priorityContexts e.context < priorityContexts w.context
    · rw [if_pos hp] at h
      obtain ⟨u, hu, huv⟩ := List.mem_map.mp h
      by_cases hup : u.path = w.path
      · right; rw [← huv]; simp [hup]
      · left; rw [← huv]; simp only [if_neg hup]; exact hu
    · rw [if_neg hp] at h
      left; exact h

theorem insertDedup_persist (acc : List Variable) (w : Variable)
    (hnd : (acc.map (fun v => v.path)).Nodup) (p : String) (c : Nat)
    (hex : ∃ v, v ∈ acc ∧ v.path = p ∧ c ≤ priorityContexts v.context) :
    ∃ v, v ∈ insertDedup acc w ∧ v.path = p ∧ c ≤ priorityContexts v.context := by
  obtain ⟨v, hv, hvp, hvc⟩ := hex
  rcases hf : acc.find? (fun e => e.path = w.path) with _ | e <;>
    simp only [insertDedup, hf]
  · exact ⟨v, List.mem_append_left _ hv, hvp, hvc⟩
  · by_cases hp : priorityContexts e.context < priorityContexts w.context
    · rw [if_pos hp]
      by_cases hvw : v.path = w.path
      · have he1 : e ∈ acc := List.mem_of_find?_eq_some hf
        have he2 : e.path = w.path := by
          have := List.find?_some hf
          simpa using this
        have hve : v = e :=
          nodup_map_inj (fun v => v.path) acc hnd v hv e he1
            (by show v.path = e.path; rw [hvw, he2])
        refine ⟨w, ?_, ?_, ?_⟩
        · exact List.mem_map.mpr ⟨e, he1, by simp [he2]⟩
        · rw [← hvp, hvw]
        · have hce : c ≤ priorityContexts e.context := hve ▸ hvc
          omega
      · refine ⟨v, ?_, hvp, hvc⟩
        exact List.mem_map.mpr ⟨v, hv, by simp [hvw]⟩
    · rw [if_neg hp]
      exact ⟨v, hv, hvp, hvc⟩

theorem insertDedup_introduces (acc : List Variable) (w : Variable) :
    ∃ v, v ∈ insertDedup acc w ∧ v.path = w.path ∧
      priorityContexts w.context ≤ priorityContexts v.context := by
  rcases hf : acc.find? (fun e => e.path = w.path) with _ | e <;>
    simp only [insertDedup, hf]
  · exact ⟨w, List.mem_append_right _ (List.mem_singleton.mpr rfl), rfl, Nat.le_refl _⟩
  · have he1 : e ∈ acc := List.mem_of_find?_eq_some hf
    have he2 : e.path = w.path := by
      have := List.find?_some hf
      simpa using this
    by_cases hp : priorityContexts e.context < priorityContexts w.context
    · rw [if_pos hp]
      exact ⟨w, List.mem_map.mpr ⟨e, he1, by simp [he2]⟩, rfl, Nat.le_refl _⟩
    · rw [if_neg hp]
      exact ⟨e, he1, he2, by omega⟩

theorem dedupFold_nodup :
    ∀ (vs : List Variable) (acc : List Variable),
      (acc.map (fun v => v.path)).Nodup →
      ((vs.foldl insertDedup acc).map (fun v => v.path)).Nodup := by
  intro vs
  induction vs with
  | nil => intro acc h; exact h
  | cons w rest ih =>
      intro acc h
      rw [List.foldl_cons]
      exact ih _ (insertDedup_nodup acc w h)

theorem dedupFold_mem :
    ∀ (vs : List Variable) (acc : List Variable) (v : Variable),
      v ∈ vs.foldl insertDedup acc → v ∈ acc ∨ v ∈ vs := by
  intro vs
  induction vs with
  | nil => intro acc v h; left; exact h
  | cons w rest ih =>
      intro acc v h
      rw [List.foldl_cons] at h
      rcases ih _ v h with h1 | h2
      · rcases insertDedup_mem acc w v h1 with h3 | h4
        · left; exact h3
        · right; rw [h4]; exact List.mem_cons_self w rest
      · right; exact List.mem_cons_of_mem w h2

theorem dedupFold_persist :
    ∀ (vs : List Variable) (acc : List Variable),
      (acc.map (fun v => v.path)).Nodup →
      ∀ (p : String) (c : Nat),
      (∃ v, v ∈ acc ∧ v.path = p ∧ c ≤ priorityContexts v.context) →
      ∃ v, v ∈ vs.foldl insertDedup acc ∧ v.path = p ∧
        c ≤ priorityContexts v.context := by
  intro vs
  induction vs with
  | nil => intro acc _ p c h; exact h
  | cons w rest ih =>
      intro acc hnd p c h
      rw [List.foldl_cons]
      exact ih _ (insertDedup_nodup acc w hnd) p c (insertDedup_persist acc w hnd p c h)

theorem dedupFold_dom :
    ∀ (vs : List Variable) (acc : List Variable),
      (acc.map (fun v => v.path)).Nodup →
      ∀ w, w ∈ vs →
      ∃ v, v ∈ vs.foldl insertDedup acc ∧ v.path = w.path ∧
        priorityContexts w.context ≤ priorityContexts v.context := by
  intro vs
  induction vs with
  | nil => intro acc _ w hw; exact absurd hw (List.not_mem_nil w)
  | cons w0 rest ih =>
      intro acc hnd w hw
      rw [List.foldl_cons]
      rcases List.mem_cons.mp hw with he | hr
      · subst he
        obtain ⟨v, hv, hvp, hvc⟩ := insertDedup_introduces acc w
        exact dedupFold_persist rest _ (insertDedup_nodup acc w hnd) w.path
          (priorityContexts w.context) ⟨v, hv, hvp, hvc⟩
      · exact ih _ (insertDedup_nodup acc w0 hnd) w hr

theorem recalc_paths (m : List Variable) :
    (recalcArrays m).map (fun v => v.path) = m.map (fun v => v.path) := by
  unfold recalcArrays
  rw [List.map_map]
  apply List.map_congr_left
  intro v hv
  show (if v.varType = "array" && m.any
      (fun o => strStartsWith o.path (v.path ++ "[0].")) then
    (⟨v.path, v.varType, v.context, v.filePath, .objListV⟩ : Variable)
  else v).path = v.path
  by_cases h : (v.varType = "array" && m.any
      (fun o => strStartsWith o.path (v.path ++ "[0]."))) = true
  · rw [if_pos h]
  · rw [if_neg h]

theorem recalc_mem (m : List Variable) (v : Variable) (h : v ∈ recalcArrays m) :
    ∃ u, u ∈ m ∧ v.path = u.path ∧ v.context = u.context := by
  unfold recalcArrays at h
  obtain ⟨u, hu, huv⟩ := List.mem_map.mp h
  refine ⟨u, hu, ?_⟩
  by_cases hc : (u.varType = "array" && m.any
      (fun o => strStartsWith o.path (u.path ++ "[0]."))) = true
  · rw [if_pos hc] at huv
    rw [← huv]
    exact ⟨rfl, rfl⟩
  · rw [if_neg hc] at huv
    rw [← huv]
    exact ⟨rfl, rfl⟩

theorem recalc_surj (m : List Variable) (u : Variable) (hu : u ∈ m) :
    ∃ v, v ∈ recalcArrays m ∧ v.path = u.path ∧ v.context = u.context := by
  unfold recalcArrays
  by_cases hc : (u.varType = "array" && m.any
      (fun o => strStartsWith o.path (u.path ++ "[0]."))) = true
  · refine ⟨⟨u.path, u.varType, u.context, u.filePath, .objListV⟩, ?_, rfl, rfl⟩
    exact List.mem_map.mpr ⟨u, hu, by rw [if_pos hc]⟩
  · refine ⟨u, ?_, rfl, rfl⟩
    exact List.mem_map.mpr ⟨u, hu, by rw [if_neg hc]⟩

theorem skip_sub (aif an : List String) (m : List Variable) (v : Variable)
    (h : v ∈ skipRedundant aif an m) : v ∈ m := by
  unfold skipRedundant at h
  exact List.mem_of_mem_filter h

theorem skip_sublist2 (aif an : List String) (m : List Variable) :
    List.Sublist (skipRedundant aif an m) m := by
  unfold skipRedundant
  exact List.filter_sublist m

/-- C3: in every finalized analysis result the variable paths are pairwise
distinct (so no (path, context) pair repeats); each retained descriptor's
path and context come from an extracted descriptor; and the retained
descriptor's context priority dominates that of every extracted descriptor
for the same path, per the table eq-number = gt-number = 10, eq-string = 9,
range-collection = 8, range = 5, if = with = 3, template = 2, chain = 1,
empty = 0. -/
theorem dedup_result_C3 (vs : List Variable) :
    ((finalizeVariables vs).map (fun v => v.path)).Nodup ∧
    (∀ v, v ∈ finalizeVariables vs →
      ∃ w, w ∈ vs ∧ w.path = v.path ∧ w.context = v.context) ∧
    (∀ v, v ∈ finalizeVariables vs → ∀ w, w ∈ vs → w.path = v.path →
      priorityContexts w.context ≤ priorityContexts v.context) ∧
    (priorityContexts "eq-number" = 10 ∧ priorityContexts "gt-number" = 10 ∧
     priorityContexts "eq-string" = 9 ∧ priorityContexts "range-collection" = 8 ∧
     priorityContexts "range" = 5 ∧ priorityContexts "if" = 3 ∧
     priorityContexts "with" = 3 ∧ priorityContexts "template" = 2 ∧
     priorityContexts "chain" = 1 ∧ priorityContexts "" = 0) := by
  have hdnd : ((dedupVars vs).map (fun v => v.path)).Nodup :=
    dedupFold_nodup vs [] (by simp)
  have hr001 : ((recalcArrays (dedupVars vs)).map (fun v => v.path)).Nodup := by
    rw [recalc_paths]
    exact hdnd
  refine ⟨?_, ?_, ?_, by decide⟩
  · unfold finalizeVariables
    exact List.Nodup.sublist
      (List.Sublist.map _ (skip_sublist2 _ _ (recalcArrays (dedupVars vs)))) hr001
  · intro v hv
    have hvr : v ∈ recalcArrays (dedupVars vs) := skip_sub _ _ _ v hv
    obtain ⟨u, hu, hup, huc⟩ := recalc_mem _ v hvr
    rcases dedupFold_mem vs [] u hu with h0 | h1
    · exact absurd h0 (List.not_mem_nil u)
    · exact ⟨u, h1, hup.symm, huc.symm⟩
  · intro v hv w hw hwp
    have hvr : v ∈ recalcArrays (dedupVars vs) := skip_sub _ _ _ v hv
    obtain ⟨u, hu, hup, huc⟩ := recalc_mem _ v hvr
    obtain ⟨u2, hu2, hu2p, hu2c⟩ := dedupFold_dom vs [] (by simp) w hw
    have huu : u = u2 :=
      nodup_map_inj (fun v => v.path) (dedupVars vs) hdnd u hu u2 hu2
        (by show u.path = u2.path; rw [hu2p, hwp, hup])
    rw [huc, huu]
    exact hu2c

end GTV

namespace GTV

theorem dedup_result_C3_witness :
    (∃ w, w ∈ [cexChain, cexEqNum] ∧ w.path = cexEqNum.path ∧
      w.context = cexEqNum.context) ∧
    priorityContexts cexChain.context ≤ priorityContexts cexEqNum.context :=
  ⟨(dedup_result_C3 [cexChain, cexEqNum]).2.1 cexEqNum (by decide),
   (dedup_result_C3 [cexChain, cexEqNum]).2.2.1 cexEqNum (by decide) cexChain
     (by decide) (by decide)⟩

end GTV

namespace GTV

theorem keep_refl (s : AnalyzerState) : keepsVars s s := fun _ _ _ h => h

theorem keep_trans {s t u : AnalyzerState} (h1 : keepsVars s t)
    (h2 : keepsVars t u) : keepsVars s u :=
  fun p c v h => h2 p c v (h1 p c v h)

theorem keep_of_varsMap_eq {s t : AnalyzerState} (h : t.varsMap = s.varsMap) :
    keepsVars s t := by
  intro p c v hv
  unfold lookupVar at hv ⊢
  rw [h]
  exact hv

theorem wf_of_varsMap_eq {s t : AnalyzerState} (h : t.varsMap = s.varsMap)
    (hw : wfVars s) : wfVars t := by
  intro k v hv
  rw [h] at hv
  exact hw k v hv

theorem find?_append_none {α : Type} (p : α → Bool) (l1 l2 : List α)
    (h : l1.find? p = none) : (l1 ++ l2).find? p = l2.find? p := by
  induction l1 with
  | nil => rfl
  | cons a l ih =>
      by_cases hp : p a
      · rw [List.find?_cons_of_pos _ hp] at h
        exact absurd h (by simp)
      · rw [List.find?_cons_of_neg _ hp] at h
        rw [List.cons_append, List.find?_cons_of_neg _ hp]
        exact ih h

theorem find?_append_some {α : Type} (p : α → Bool) (l1 l2 : List α) (a : α)
    (h : l1.find? p = some a) : (l1 ++ l2).find? p = some a := by
  induction l1 with
  | nil => exact absurd h (by simp)
  | cons b l ih =>
      by_cases hp : p b
      · rw [List.find?_cons_of_pos _ hp] at h
        rw [List.cons_append, List.find?_cons_of_pos _ hp]
        exact h
      · rw [List.find?_cons_of_neg _ hp] at h
        rw [List.cons_append, List.find?_cons_of_neg _ hp]
        exact ih h

theorem insertVarIfAbsent_keep (st : AnalyzerState) (p c : String)
    (w : Variable) : keepsVars st (insertVarIfAbsent st p c w) := by
  intro q d v hv
  unfold insertVarIfAbsent
  by_cases h : (st.varsMap.find? (fun e => e.1 = (p, c))).isSome
  · rw [if_pos h]
    exact hv
  · rw [if_neg h]
    unfold lookupVar at hv ⊢
    rcases hf : st.varsMap.find? (fun e => e.1 = (q, d)) with _ | e
    · rw [hf] at hv
      exact absurd hv (by simp)
    · rw [hf] at hv
      show ((st.varsMap ++ [((p, c), w)]).find? (fun e => e.1 = (q, d))).map
        (fun e => e.2) = some v
      rw [find?_append_some _ _ _ e hf]
      exact hv

theorem insertVarIfAbsent_present (st : AnalyzerState) (p c : String)
    (w : Variable) :
    ∃ v, lookupVar (insertVarIfAbsent st p c w) p c = some v := by
  unfold insertVarIfAbsent
  by_cases h : (st.varsMap.find? (fun e => e.1 = (p, c))).isSome
  · rw [if_pos h]
    obtain ⟨e, he⟩ := Option.isSome_iff_exists.mp h
    exact ⟨e.2, by unfold lookupVar; rw [he]; rfl⟩
  · rw [if_neg h]
    refine ⟨w, ?_⟩
    unfold lookupVar
    have hn : st.varsMap.find? (fun e => e.1 = (p, c)) = none :=
      Option.not_isSome_iff_eq_none.mp h
    rw [find?_append_none _ _ _ hn]
    simp

theorem insertVarIfAbsent_wf (st : AnalyzerState) (p c : String) (w : Variable)
    (hw : wfVars st)
    (hv : w.path = p ∧ w.context = c ∧
      ((c = "eq-number" ∨ c = "gt-number") →
        w.varType = "number" ∧ ∃ m, w.suggested = SuggestedVal.intV m)) :
    wfVars (insertVarIfAbsent st p c w) := by
  unfold insertVarIfAbsent
  by_cases h : (st.varsMap.find? (fun e => e.1 = (p, c))).isSome
  · rw [if_pos h]
    exact hw
  · rw [if_neg h]
    intro k v hkv
    rcases List.mem_append.mp hkv with h1 | h2
    · exact hw k v h1
    · have : (k, v) = ((p, c), w) := List.mem_singleton.mp h2
      have hk : k = (p, c) := congrArg Prod.fst this
      have hv2 : v = w := congrArg Prod.snd this
      subst hk
      subst hv2
      exact hv

end GTV

namespace GTV

theorem rangeCtx_ne_eqnum (s : String) : ("range:" ++ s) ≠ "eq-number" := by
  intro h
  have h2 := congrArg String.data h
  rw [String.data_append] at h2
  have h3 : "range:".data = ['r', 'a', 'n', 'g', 'e', ':'] := rfl
  have h4 : "eq-number".data = ['e', 'q', '-', 'n', 'u', 'm', 'b', 'e', 'r'] := rfl
  rw [h3, h4] at h2
  simp at h2

theorem rangeCtx_ne_gtnum (s : String) : ("range:" ++ s) ≠ "gt-number" := by
  intro h
  have h2 := congrArg String.data h
  rw [String.data_append] at h2
  have h3 : "range:".data = ['r', 'a', 'n', 'g', 'e', ':'] := rfl
  have h4 : "gt-number".data = ['g', 't', '-', 'n', 'u', 'm', 'b', 'e', 'r'] := rfl
  rw [h3, h4] at h2
  simp at h2

theorem insertPlainVar_keep (st : AnalyzerState) (fp p c : String) :
    keepsVars st (insertPlainVar st fp p c) :=
  insertVarIfAbsent_keep st p c _

theorem insertPlainVar_wf (st : AnalyzerState) (fp p c : String)
    (hc1 : c ≠ "eq-number") (hc2 : c ≠ "gt-number") (hw : wfVars st) :
    wfVars (insertPlainVar st fp p c) :=
  insertVarIfAbsent_wf st p c _ hw
    ⟨rfl, rfl, fun h => absurd h (by simp [hc1, hc2])⟩

theorem insertChainVar_keep (st : AnalyzerState) (fp p : String) :
    keepsVars st (insertChainVar st fp p) :=
  insertVarIfAbsent_keep st p "chain" _

theorem insertChainVar_wf (st : AnalyzerState) (fp p : String)
    (hw : wfVars st) : wfVars (insertChainVar st fp p) :=
  insertVarIfAbsent_wf st p "chain" _ hw
    ⟨rfl, rfl, fun h => absurd h (by simp)⟩

theorem insertVariableVars_keep (fp c : String) :
    ∀ (idents : List String) (st : AnalyzerState),
      keepsVars st (insertVariableVars st fp c idents) := by
  intro idents
  induction idents with
  | nil => intro st; simp only [insertVariableVars]; exact keep_refl st
  | cons i rest ih =>
      intro st
      simp only [insertVariableVars]
      exact keep_trans (insertVarIfAbsent_keep st _ c _) (ih _)

theorem insertVariableVars_wf (fp c : String) (hc1 : c ≠ "eq-number")
    (hc2 : c ≠ "gt-number") :
    ∀ (idents : List String) (st : AnalyzerState), wfVars st →
      wfVars (insertVariableVars st fp c idents) := by
  intro idents
  induction idents with
  | nil => intro st hw; simp only [insertVariableVars]; exact hw
  | cons i rest ih =>
      intro st hw
      simp only [insertVariableVars]
      exact ih _ (insertVarIfAbsent_wf st _ c _ hw
        ⟨rfl, rfl, fun h => absurd h (by simp [hc1, hc2])⟩)

theorem insertEqFields_keep (fp c : String) (isNumeric : Bool)
    (strs : List String) (nums : List Int) :
    ∀ (fields : List (List String)) (st : AnalyzerState),
      keepsVars st (insertEqFields st fp c isNumeric strs nums fields) := by
  intro fields
  induction fields with
  | nil => intro st; simp only [insertEqFields]; exact keep_refl st
  | cons idents rest ih =>
      intro st
      simp only [insertEqFields]
      by_cases hp : String.intercalate "." idents = ""
      · rw [if_pos hp]
        exact ih st
      · rw [if_neg hp]
        rcases hr : resolveCompPath c (String.intercalate "." idents) with _ | path
        · exact ih st
        · cases isNumeric
          · simp only [Bool.false_eq_true, if_neg, if_false]
            exact keep_trans (insertVarIfAbsent_keep st _ _ _) (ih _)
          · simp only [if_true]
            exact keep_trans (insertVarIfAbsent_keep st _ _ _) (ih _)

theorem insertEqFields_wf (fp c : String) (isNumeric : Bool)
    (strs : List String) (nums : List Int) :
    ∀ (fields : List (List String)) (st : AnalyzerState), wfVars st →
      wfVars (insertEqFields st fp c isNumeric strs nums fields) := by
  intro fields
  induction fields with
  | nil => intro st hw; simp only [insertEqFields]; exact hw
  | cons idents rest ih =>
      intro st hw
      simp only [insertEqFields]
      by_cases hp : String.intercalate "." idents = ""
      · rw [if_pos hp]
        exact ih st hw
      · rw [if_neg hp]
        rcases hr : resolveCompPath c (String.intercalate "." idents) with _ | path
        · exact ih st hw
        · cases isNumeric
          · simp only [Bool.false_eq_true, if_neg, if_false]
            refine ih _ (insertVarIfAbsent_wf st _ _ _ hw ⟨rfl, rfl, fun h => ?_⟩)
            rcases h with h | h <;> simp at h
          · simp only [if_true]
            refine ih _ (insertVarIfAbsent_wf st _ _ _ hw ⟨rfl, rfl, fun h => ?_⟩)
            exact ⟨rfl, _, rfl⟩

theorem insertEqFields_hits (fp c : String) (strs : List String)
    (nums : List Int) (X : String) (idents : List String)
    (hne : String.intercalate "." idents ≠ "")
    (hres : resolveCompPath c (String.intercalate "." idents) = some X) :
    ∀ (fields : List (List String)) (st : AnalyzerState), idents ∈ fields →
      ∃ v, lookupVar (insertEqFields st fp c true strs nums fields)
        X "eq-number" = some v := by
  intro fields
  induction fields with
  | nil => intro st h; exact absurd h (List.not_mem_nil idents)
  | cons f rest ih =>
      intro st hmem
      simp only [insertEqFields]
      rcases List.mem_cons.mp hmem with he | hr
      · subst he
        rw [if_neg hne, hres]
        simp only [if_true]
        obtain ⟨v, hv⟩ := insertVarIfAbsent_present st X "eq-number"
          ⟨X, "number", "eq-number", fp, .intV (nums.headD 0)⟩
        exact ⟨_, insertEqFields_keep fp c true strs nums rest _ X "eq-number" v hv⟩
      · by_cases hp : String.intercalate "." f = ""
        · rw [if_pos hp]
          exact ih st hr
        · rw [if_neg hp]
          rcases hr2 : resolveCompPath c (String.intercalate "." f) with _ | path
          · exact ih st hr
          · simp only [if_true]
            exact ih _ hr

theorem insertEqChains_keep (fp : String) (isNumeric : Bool)
    (strs : List String) (nums : List Int) :
    ∀ (chains : List (List String)) (st : AnalyzerState),
      keepsVars st (insertEqChains st fp isNumeric strs nums chains) := by
  intro chains
  induction chains with
  | nil => intro st; simp only [insertEqChains]; exact keep_refl st
  | cons fields rest ih =>
      intro st
      simp only [insertEqChains]
      by_cases hl : 0 < fields.length
      · rw [if_pos hl]
        cases isNumeric
        · simp only [Bool.false_eq_true, if_neg, if_false]
          exact keep_trans (insertVarIfAbsent_keep st _ _ _) (ih _)
        · simp only [if_true]
          exact keep_trans (insertVarIfAbsent_keep st _ _ _) (ih _)
      · rw [if_neg hl]
        exact ih st

theorem insertEqChains_wf (fp : String) (isNumeric : Bool)
    (strs : List String) (nums : List Int) :
    ∀ (chains : List (List String)) (st : AnalyzerState), wfVars st →
      wfVars (insertEqChains st fp isNumeric strs nums chains) := by
  intro chains
  induction chains with
  | nil => intro st hw; simp only [insertEqChains]; exact hw
  | cons fields rest ih =>
      intro st hw
      simp only [insertEqChains]
      by_cases hl : 0 < fields.length
      · rw [if_pos hl]
        cases isNumeric
        · simp only [Bool.false_eq_true, if_neg, if_false]
          refine ih _ (insertVarIfAbsent_wf st _ _ _ hw ⟨rfl, rfl, fun h => ?_⟩)
          rcases h with h | h <;> simp at h
        · simp only [if_true]
          refine ih _ (insertVarIfAbsent_wf st _ _ _ hw ⟨rfl, rfl, fun h => ?_⟩)
          exact ⟨rfl, _, rfl⟩
      · rw [if_neg hl]
        exact ih st hw

theorem insertNumFields_keep (fp c : String) (nums : List Int) :
    ∀ (fields : List (List String)) (st : AnalyzerState),
      keepsVars st (insertNumFields st fp c nums fields) := by
  intro fields
  induction fields with
  | nil => intro st; simp only [insertNumFields]; exact keep_refl st
  | cons idents rest ih =>
      intro st
      simp only [insertNumFields]
      by_cases hp : String.intercalate "." idents = ""
      · rw [if_pos hp]
        exact ih st
      · rw [if_neg hp]
        rcases hr : resolveCompPath c (String.intercalate "." idents) with _ | path
        · exact ih st
        · exact keep_trans (insertVarIfAbsent_keep st _ _ _) (ih _)

theorem insertNumFields_wf (fp c : String) (nums : List Int) :
    ∀ (fields : List (List String)) (st : AnalyzerState), wfVars st →
      wfVars (insertNumFields st fp c nums fields) := by
  intro fields
  induction fields with
  | nil => intro st hw; simp only [insertNumFields]; exact hw
  | cons idents rest ih =>
      intro st hw
      simp only [insertNumFields]
      by_cases hp : String.intercalate "." idents = ""
      · rw [if_pos hp]
        exact ih st hw
      · rw [if_neg hp]
        rcases hr : resolveCompPath c (String.intercalate "." idents) with _ | path
        · exact ih st hw
        · refine ih _ (insertVarIfAbsent_wf st _ _ _ hw ⟨rfl, rfl, fun _ => ?_⟩)
          exact ⟨rfl, _, rfl⟩

theorem appendRangeLiteral_varsMap (st : AnalyzerState) (p lit : String) :
    (appendRangeLiteral st p lit).varsMap = st.varsMap := by
  unfold appendRangeLiteral setRangeLiterals
  by_cases h : lit ∈ getRangeLiterals st p
  · rw [if_pos h]
  · rw [if_neg h]
    by_cases h2 : (st.rangeLiterals.find? (fun e => e.1 = p)).isSome
    · rw [if_pos h2]
    · rw [if_neg h2]

theorem extractLiteralsFromCmd_varsMap (st : AnalyzerState) (p : String)
    (args : List TArg) :
    (extractLiteralsFromCmd st p args).varsMap = st.varsMap := by
  rcases args with _ | ⟨a, rest⟩
  · rfl
  · cases a <;> try rfl
    case identA n =>
      simp only [extractLiteralsFromCmd]
      by_cases h : n = "eq" ∨ n = "ne"
      · rw [if_pos h]
        clear h
        induction rest generalizing st with
        | nil => rfl
        | cons b bs ih =>
            rw [List.foldl_cons]
            rw [ih]
            cases b <;> first | rfl | exact appendRangeLiteral_varsMap st p _
      · rw [if_neg h]

theorem extractLiteralsFromPipe_varsMap (st : AnalyzerState) (p : String)
    (cmds : List (List TArg)) :
    (extractLiteralsFromPipe st p cmds).varsMap = st.varsMap := by
  unfold extractLiteralsFromPipe
  induction cmds generalizing st with
  | nil => rfl
  | cons c cs ih =>
      rw [List.foldl_cons, ih, extractLiteralsFromCmd_varsMap]


theorem extractRangeLiterals_varsMap :
    ∀ (st : AnalyzerState) (p : String) (n : TNode),
      (extractRangeLiterals st p n).varsMap = st.varsMap := by
  have key := GTV.extractRangeLiterals.induct
    (fun st p n => (extractRangeLiterals st p n).varsMap = st.varsMap)
    (fun st p o => (extractRangeLiteralsOpt st p o).varsMap = st.varsMap)
    (fun st p l => (extractRangeLiteralsList st p l).varsMap = st.varsMap)
  intro st p n
  apply key
  case case1 =>
    intro st p children ih
    rw [GTV.extractRangeLiterals.eq_1]
    exact ih
  case case2 =>
    intro st p pipe body alt ih1 ih2
    rw [GTV.extractRangeLiterals.eq_2, ih2, ih1, extractLiteralsFromPipe_varsMap]
  case case3 =>
    intro st p pipe
    rw [GTV.extractRangeLiterals.eq_3]
    exact extractLiteralsFromPipe_varsMap st p pipe
  case case4 =>
    intro st p pipe body alt ih1 ih2
    rw [GTV.extractRangeLiterals.eq_4, ih2, ih1, extractLiteralsFromPipe_varsMap]
  all_goals intros
  all_goals try rw [GTV.extractRangeLiterals.eq_5]
  all_goals try (rw [GTV.extractRangeLiterals.eq_6] <;> assumption)
  all_goals try (simp only [extractRangeLiteralsOpt])
  all_goals try (simp only [extractRangeLiteralsList])
  all_goals try assumption
  all_goals (rename_i ih1 ih2; rw [ih2, ih1])

end GTV

namespace GTV

theorem extractVariables_keep :
    ∀ (st : AnalyzerState) (fp ctx : String) (a : TArg),
      keepsVars st (extractVariables st fp ctx a) := by
  have key := GTV.extractVariables.induct
    (fun st fp ctx as => keepsVars st (extractVarsArgs st fp ctx as))
    (fun st fp ctx a => keepsVars st (extractVariables st fp ctx a))
    (fun st fp ctx cs => keepsVars st (extractVarsCmds st fp ctx cs))
  intro st fp ctx a
  apply key
  case case1 =>
    intro st fp ctx
    simp only [extractVarsArgs]
    exact keep_refl st
  case case2 =>
    intro st fp ctx a rest ih1 ih2
    simp only [extractVarsArgs]
    exact keep_trans ih1 ih2
  case case3 =>
    intro st fp ctx idents path hp
    have hp2 : String.intercalate "." idents = "" := hp
    simp only [extractVariables]
    rw [if_pos hp2]
    exact keep_refl st
  case case4 =>
    intro st fp ctx idents path hp hs
    have hp2 : ¬ String.intercalate "." idents = "" := hp
    simp only [extractVariables]
    rw [if_neg hp2, if_pos hs]
    exact insertPlainVar_keep st fp _ "range"
  case case5 =>
    intro st fp idents path hp hs
    have hp2 : ¬ String.intercalate "." idents = "" := hp
    simp only [extractVariables]
    rw [if_neg hp2, if_neg hs]
    simp only [if_true]
    exact keep_refl st
  case case6 =>
    intro st fp ctx idents path hp hs hr
    have hp2 : ¬ String.intercalate "." idents = "" := hp
    simp only [extractVariables]
    rw [if_neg hp2, if_neg hs, if_neg hr]
    exact insertPlainVar_keep st fp _ ctx
  case case7 =>
    intro st fp ctx idents
    simp only [extractVariables]
    exact insertVariableVars_keep fp ctx idents st
  case case8 =>
    intro st fp ctx base fields st1 ih
    have hstep : keepsVars st
        (if 0 < fields.length then
          (if String.intercalate "." fields ≠ "" then
            insertChainVar st fp (String.intercalate "." fields) else st)
        else st) := by
      by_cases h1 : 0 < fields.length
      · rw [if_pos h1]
        by_cases h2 : String.intercalate "." fields ≠ ""
        · rw [if_pos h2]
          exact insertChainVar_keep st fp _
        · rw [if_neg h2]
          exact keep_refl st
      · rw [if_neg h1]
        exact keep_refl st
    simp only [extractVariables]
    exact keep_trans hstep ih
  case case9 =>
    intro st fp ctx cmds ih
    simp only [extractVariables]
    exact ih
  case case10 =>
    intro st fp ctx x h1 h2 h3 h4
    clear key
    cases x <;> first
      | exact absurd rfl (fun hh => h1 _ hh)
      | exact absurd rfl (fun hh => h2 _ hh)
      | exact absurd rfl (fun hh => h3 _ _ hh)
      | exact absurd rfl (fun hh => h4 _ hh)
      | (simp only [extractVariables]; exact keep_refl _)
  case case11 =>
    intro st fp ctx
    simp only [extractVarsCmds]
    exact keep_refl st
  case case12 =>
    intro st fp ctx c cs ih1 ih2
    simp only [extractVarsCmds]
    exact keep_trans ih1 ih2

end GTV

namespace GTV

theorem extractVariables_wf :
    ∀ (st : AnalyzerState) (fp ctx : String) (a : TArg),
      ctx ≠ "eq-number" → ctx ≠ "gt-number" → wfVars st →
      wfVars (extractVariables st fp ctx a) := by
  have key := GTV.extractVariables.induct
    (fun st fp ctx as => ctx ≠ "eq-number" → ctx ≠ "gt-number" → wfVars st →
      wfVars (extractVarsArgs st fp ctx as))
    (fun st fp ctx a => ctx ≠ "eq-number" → ctx ≠ "gt-number" → wfVars st →
      wfVars (extractVariables st fp ctx a))
    (fun st fp ctx cs => ctx ≠ "eq-number" → ctx ≠ "gt-number" → wfVars st →
      wfVars (extractVarsCmds st fp ctx cs))
  intro st fp ctx a
  apply key
  case case1 =>
    intro st fp ctx _ _ hw
    simp only [extractVarsArgs]
    exact hw
  case case2 =>
    intro st fp ctx a rest ih1 ih2 hc1 hc2 hw
    simp only [extractVarsArgs]
    exact ih2 hc1 hc2 (ih1 hc1 hc2 hw)
  case case3 =>
    intro st fp ctx idents path hp hc1 hc2 hw
    have hp2 : String.intercalate "." idents = "" := hp
    simp only [extractVariables]
    rw [if_pos hp2]
    exact hw
  case case4 =>
    intro st fp ctx idents path hp hs hc1 hc2 hw
    have hp2 : ¬ String.intercalate "." idents = "" := hp
    simp only [extractVariables]
    rw [if_neg hp2, if_pos hs]
    exact insertPlainVar_wf st fp _ "range" (by decide) (by decide) hw
  case case5 =>
    intro st fp idents path hp hs hc1 hc2 hw
    have hp2 : ¬ String.intercalate "." idents = "" := hp
    simp only [extractVariables]
    rw [if_neg hp2, if_neg hs]
    simp only [if_true]
    exact hw
  case case6 =>
    intro st fp ctx idents path hp hs hr hc1 hc2 hw
    have hp2 : ¬ String.intercalate "." idents = "" := hp
    simp only [extractVariables]
    rw [if_neg hp2, if_neg hs, if_neg hr]
    exact insertPlainVar_wf st fp _ ctx hc1 hc2 hw
  case case7 =>
    intro st fp ctx idents hc1 hc2 hw
    simp only [extractVariables]
    exact insertVariableVars_wf fp ctx hc1 hc2 idents st hw
  case case8 =>
    intro st fp ctx base fields st1 ih hc1 hc2 hw
    have hstep : wfVars
        (if 0 < fields.length then
          (if String.intercalate "." fields ≠ "" then
            insertChainVar st fp (String.intercalate "." fields) else st)
        else st) := by
      by_cases h1 : 0 < fields.length
      · rw [if_pos h1]
        by_cases h2 : String.intercalate "." fields ≠ ""
        · rw [if_pos h2]
          exact insertChainVar_wf st fp _ hw
        · rw [if_neg h2]
          exact hw
      · rw [if_neg h1]
        exact hw
    simp only [extractVariables]
    exact ih hc1 hc2 hstep
  case case9 =>
    intro st fp ctx cmds ih hc1 hc2 hw
    simp only [extractVariables]
    exact ih hc1 hc2 hw
  case case10 =>
    intro st fp ctx x h1 h2 h3 h4 hc1 hc2 hw
    clear key
    cases x <;> first
      | exact absurd rfl (fun hh => h1 _ hh)
      | exact absurd rfl (fun hh => h2 _ hh)
      | exact absurd rfl (fun hh => h3 _ _ hh)
      | exact absurd rfl (fun hh => h4 _ hh)
      | (simp only [extractVariables]; exact hw)
  case case11 =>
    intro st fp ctx _ _ hw
    simp only [extractVarsCmds]
    exact hw
  case case12 =>
    intro st fp ctx c cs ih1 ih2 hc1 hc2 hw
    simp only [extractVarsCmds]
    exact ih2 hc1 hc2 (ih1 hc1 hc2 hw)

theorem extractVarsArgs_keep (fp ctx : String) :
    ∀ (as : List TArg) (st : AnalyzerState),
      keepsVars st (extractVarsArgs st fp ctx as) := by
  intro as
  induction as with
  | nil => intro st; simp only [extractVarsArgs]; exact keep_refl st
  | cons a rest ih =>
      intro st
      simp only [extractVarsArgs]
      exact keep_trans (extractVariables_keep st fp ctx a) (ih _)

theorem extractVarsArgs_wf (fp ctx : String) (hc1 : ctx ≠ "eq-number")
    (hc2 : ctx ≠ "gt-number") :
    ∀ (as : List TArg) (st : AnalyzerState), wfVars st →
      wfVars (extractVarsArgs st fp ctx as) := by
  intro as
  induction as with
  | nil => intro st hw; simp only [extractVarsArgs]; exact hw
  | cons a rest ih =>
      intro st hw
      simp only [extractVarsArgs]
      exact ih _ (extractVariables_wf st fp ctx a hc1 hc2 hw)

theorem extractVarsCmds_keep (fp ctx : String) :
    ∀ (cs : List (List TArg)) (st : AnalyzerState),
      keepsVars st (extractVarsCmds st fp ctx cs) := by
  intro cs
  induction cs with
  | nil => intro st; simp only [extractVarsCmds]; exact keep_refl st
  | cons c rest ih =>
      intro st
      simp only [extractVarsCmds]
      exact keep_trans (extractVarsArgs_keep fp ctx c st) (ih _)

theorem extractVarsCmds_wf (fp ctx : String) (hc1 : ctx ≠ "eq-number")
    (hc2 : ctx ≠ "gt-number") :
    ∀ (cs : List (List TArg)) (st : AnalyzerState), wfVars st →
      wfVars (extractVarsCmds st fp ctx cs) := by
  intro cs
  induction cs with
  | nil => intro st hw; simp only [extractVarsCmds]; exact hw
  | cons c rest ih =>
      intro st hw
      simp only [extractVarsCmds]
      exact ih _ (extractVarsArgs_wf fp ctx hc1 hc2 c st hw)

theorem extractRemainingEq_keep (fp ctx : String) :
    ∀ (as : List TArg) (st : AnalyzerState),
      keepsVars st (extractRemainingEq st fp ctx as) := by
  intro as
  induction as with
  | nil => intro st; simp only [extractRemainingEq]; exact keep_refl st
  | cons a rest ih =>
      intro st
      cases a <;> simp only [extractRemainingEq] <;>
        first
          | exact ih st
          | exact keep_trans (extractVariables_keep st fp ctx _) (ih _)

theorem extractRemainingEq_wf (fp ctx : String) (hc1 : ctx ≠ "eq-number")
    (hc2 : ctx ≠ "gt-number") :
    ∀ (as : List TArg) (st : AnalyzerState), wfVars st →
      wfVars (extractRemainingEq st fp ctx as) := by
  intro as
  induction as with
  | nil => intro st hw; simp only [extractRemainingEq]; exact hw
  | cons a rest ih =>
      intro st hw
      cases a <;> simp only [extractRemainingEq] <;>
        first
          | exact ih st hw
          | exact ih _ (extractVariables_wf st fp ctx _ hc1 hc2 hw)

theorem extractRemainingNum_keep (fp ctx : String) :
    ∀ (as : List TArg) (st : AnalyzerState),
      keepsVars st (extractRemainingNum st fp ctx as) := by
  intro as
  induction as with
  | nil => intro st; simp only [extractRemainingNum]; exact keep_refl st
  | cons a rest ih =>
      intro st
      cases a <;> simp only [extractRemainingNum] <;>
        first
          | exact ih st
          | exact keep_trans (extractVariables_keep st fp ctx _) (ih _)

theorem extractRemainingNum_wf (fp ctx : String) (hc1 : ctx ≠ "eq-number")
    (hc2 : ctx ≠ "gt-number") :
    ∀ (as : List TArg) (st : AnalyzerState), wfVars st →
      wfVars (extractRemainingNum st fp ctx as) := by
  intro as
  induction as with
  | nil => intro st hw; simp only [extractRemainingNum]; exact hw
  | cons a rest ih =>
      intro st hw
      cases a <;> simp only [extractRemainingNum] <;>
        first
          | exact ih st hw
          | exact ih _ (extractVariables_wf st fp ctx _ hc1 hc2 hw)

end GTV

namespace GTV

theorem walkCmd_keep :
    ∀ (st : AnalyzerState) (fp ctx : String) (args : List TArg),
      keepsVars st (walkCmd st fp ctx args) := by
  have key := GTV.walkCmd.induct
    (fun st fp ctx cmds => keepsVars st (walkPipe st fp ctx cmds))
    (fun st fp ctx args => keepsVars st (walkCmd st fp ctx args))
    (fun st fp ctx args => keepsVars st (extractNumericComparison st fp ctx args))
    (fun st fp ctx args => keepsVars st ((collectCompArgs st fp ctx args).st))
    (fun st fp ctx args => keepsVars st (extractEqComparison st fp ctx args))
  intro st fp ctx args
  apply key
  case case1 =>
    intro st fp ctx
    rw [GTV.walkPipe.eq_1]
    exact keep_refl st
  case case2 =>
    intro st fp ctx c cs ih1 ih2
    rw [GTV.walkPipe.eq_2]
    exact keep_trans ih1 ih2
  case case3 =>
    intro st fp ctx n rest h hlen ih
    rw [GTV.walkCmd.eq_1, if_pos hlen, if_pos h]
    exact ih
  case case4 =>
    intro st fp ctx n rest h h2 hlen ih
    rw [GTV.walkCmd.eq_1, if_pos hlen, if_neg h, if_pos h2]
    exact ih
  case case5 =>
    intro st fp ctx n rest h h2 hlen
    rw [GTV.walkCmd.eq_1, if_pos hlen, if_neg h, if_neg h2]
    exact extractVarsArgs_keep fp ctx _ st
  case case6 =>
    intro st fp ctx args hlen hx
    rw [GTV.walkCmd.eq_2 st fp ctx args hx, if_pos hlen]
    exact extractVarsArgs_keep fp ctx args st
  case case7 =>
    intro st fp ctx args hlen
    rw [GTV.walkCmd.eq_def, if_neg hlen]
    exact extractVarsArgs_keep fp ctx args st
  case case8 =>
    intro st fp ctx args ih
    rw [GTV.extractNumericComparison.eq_def]
    exact keep_trans ih (keep_trans (insertNumFields_keep fp ctx _ _ _)
      (extractRemainingNum_keep fp ctx args _))
  case case9 =>
    intro st fp ctx
    rw [GTV.collectCompArgs.eq_1]
    exact keep_refl st
  case case10 =>
    intro st fp ctx rest idents ih
    rw [GTV.collectCompArgs.eq_2]
    exact ih
  case case11 =>
    intro st fp ctx rest base fields ih
    rw [GTV.collectCompArgs.eq_3]
    exact ih
  case case12 =>
    intro st fp ctx rest s ih
    rw [GTV.collectCompArgs.eq_4]
    exact ih
  case case13 =>
    intro st fp ctx rest i isFloat f ih
    simp only [GTV.collectCompArgs.eq_5, if_true]
    exact ih
  case case14 =>
    intro st fp ctx rest isInt i f hni ih
    rw [GTV.collectCompArgs.eq_5, if_neg hni]
    simp only [if_true]
    exact ih
  case case15 =>
    intro st fp ctx rest isInt i isFloat f hni hnf ih
    rw [GTV.collectCompArgs.eq_5, if_neg hni, if_neg hnf]
    exact ih
  case case16 =>
    intro st fp ctx rest cmds ih1 ih2
    rw [GTV.collectCompArgs.eq_6]
    exact keep_trans ih1 ih2
  case case17 =>
    intro st fp ctx a rest h1 h2 h3 h4 h5 ih
    rw [GTV.collectCompArgs.eq_7 st fp ctx a rest h1 h2 h3 h4 h5]
    exact ih
  case case18 =>
    intro st fp ctx args ih
    rw [GTV.extractEqComparison.eq_def]
    exact keep_trans ih (keep_trans (insertEqFields_keep fp ctx _ _ _ _ _)
      (keep_trans (insertEqChains_keep fp _ _ _ _ _)
        (extractRemainingEq_keep fp ctx args _)))

theorem walkPipe_keep (fp ctx : String) :
    ∀ (cmds : List (List TArg)) (st : AnalyzerState),
      keepsVars st (walkPipe st fp ctx cmds) := by
  intro cmds
  induction cmds with
  | nil => intro st; rw [GTV.walkPipe.eq_1]; exact keep_refl st
  | cons c cs ih =>
      intro st
      rw [GTV.walkPipe.eq_2]
      exact keep_trans (walkCmd_keep st fp ctx c) (ih _)

theorem collectCompArgs_keep (fp ctx : String) :
    ∀ (as : List TArg) (st : AnalyzerState),
      keepsVars st ((collectCompArgs st fp ctx as).st) := by
  intro as
  induction as with
  | nil => intro st; rw [GTV.collectCompArgs.eq_1]; exact keep_refl st
  | cons a rest ih =>
      intro st
      cases a
      case fieldA idents =>
        rw [GTV.collectCompArgs.eq_2]
        exact ih st
      case chainA base fields =>
        rw [GTV.collectCompArgs.eq_3]
        exact ih st
      case strA s =>
        rw [GTV.collectCompArgs.eq_4]
        exact ih st
      case numA isInt i isFloat f =>
        rw [GTV.collectCompArgs.eq_5]
        by_cases h1 : isInt = true
        · rw [if_pos h1]
          exact ih st
        · rw [if_neg h1]
          by_cases h2 : isFloat = true
          · rw [if_pos h2]
            exact ih st
          · rw [if_neg h2]
            exact ih st
      case pipeArg cmds =>
        rw [GTV.collectCompArgs.eq_6]
        exact keep_trans (walkPipe_keep fp ctx cmds st) (ih _)
      all_goals
        (rw [GTV.collectCompArgs.eq_7] <;>
          first
            | exact ih st
            | (intros; rename_i hh; cases hh))

theorem extractEqComparison_keep (st : AnalyzerState) (fp ctx : String)
    (args : List TArg) : keepsVars st (extractEqComparison st fp ctx args) := by
  rw [GTV.extractEqComparison.eq_def]
  exact keep_trans (collectCompArgs_keep fp ctx args st)
    (keep_trans (insertEqFields_keep fp ctx _ _ _ _ _)
      (keep_trans (insertEqChains_keep fp _ _ _ _ _)
        (extractRemainingEq_keep fp ctx args _)))

theorem extractNumericComparison_keep (st : AnalyzerState) (fp ctx : String)
    (args : List TArg) :
    keepsVars st (extractNumericComparison st fp ctx args) := by
  rw [GTV.extractNumericComparison.eq_def]
  exact keep_trans (collectCompArgs_keep fp ctx args st)
    (keep_trans (insertNumFields_keep fp ctx _ _ _)
      (extractRemainingNum_keep fp ctx args _))

end GTV

namespace GTV

theorem walkCmd_wf :
    ∀ (st : AnalyzerState) (fp ctx : String) (args : List TArg),
      ctx ≠ "eq-number" → ctx ≠ "gt-number" → wfVars st →
      wfVars (walkCmd st fp ctx args) := by
  have key := GTV.walkCmd.induct
    (fun st fp ctx cmds => ctx ≠ "eq-number" → ctx ≠ "gt-number" → wfVars st →
      wfVars (walkPipe st fp ctx cmds))
    (fun st fp ctx args => ctx ≠ "eq-number" → ctx ≠ "gt-number" → wfVars st →
      wfVars (walkCmd st fp ctx args))
    (fun st fp ctx args => ctx ≠ "eq-number" → ctx ≠ "gt-number" → wfVars st →
      wfVars (extractNumericComparison st fp ctx args))
    (fun st fp ctx args => ctx ≠ "eq-number" → ctx ≠ "gt-number" → wfVars st →
      wfVars ((collectCompArgs st fp ctx args).st))
    (fun st fp ctx args => ctx ≠ "eq-number" → ctx ≠ "gt-number" → wfVars st →
      wfVars (extractEqComparison st fp ctx args))
  intro st fp ctx args
  apply key
  case case1 =>
    intro st fp ctx _ _ hw
    rw [GTV.walkPipe.eq_1]
    exact hw
  case case2 =>
    intro st fp ctx c cs ih1 ih2 hc1 hc2 hw
    rw [GTV.walkPipe.eq_2]
    exact ih2 hc1 hc2 (ih1 hc1 hc2 hw)
  case case3 =>
    intro st fp ctx n rest h hlen ih hc1 hc2 hw
    rw [GTV.walkCmd.eq_1, if_pos hlen, if_pos h]
    exact ih hc1 hc2 hw
  case case4 =>
    intro st fp ctx n rest h h2 hlen ih hc1 hc2 hw
    rw [GTV.walkCmd.eq_1, if_pos hlen, if_neg h, if_pos h2]
    exact ih hc1 hc2 hw
  case case5 =>
    intro st fp ctx n rest h h2 hlen hc1 hc2 hw
    rw [GTV.walkCmd.eq_1, if_pos hlen, if_neg h, if_neg h2]
    exact extractVarsArgs_wf fp ctx hc1 hc2 _ st hw
  case case6 =>
    intro st fp ctx args hlen hx hc1 hc2 hw
    rw [GTV.walkCmd.eq_2 st fp ctx args hx, if_pos hlen]
    exact extractVarsArgs_wf fp ctx hc1 hc2 args st hw
  case case7 =>
    intro st fp ctx args hlen hc1 hc2 hw
    rw [GTV.walkCmd.eq_def, if_neg hlen]
    exact extractVarsArgs_wf fp ctx hc1 hc2 args st hw
  case case8 =>
    intro st fp ctx args ih hc1 hc2 hw
    rw [GTV.extractNumericComparison.eq_def]
    exact extractRemainingNum_wf fp ctx hc1 hc2 args _
      (insertNumFields_wf fp ctx _ _ _ (ih hc1 hc2 hw))
  case case9 =>
    intro st fp ctx _ _ hw
    rw [GTV.collectCompArgs.eq_1]
    exact hw
  case case10 =>
    intro st fp ctx rest idents ih hc1 hc2 hw
    rw [GTV.collectCompArgs.eq_2]
    exact ih hc1 hc2 hw
  case case11 =>
    intro st fp ctx rest base fields ih hc1 hc2 hw
    rw [GTV.collectCompArgs.eq_3]
    exact ih hc1 hc2 hw
  case case12 =>
    intro st fp ctx rest s ih hc1 hc2 hw
    rw [GTV.collectCompArgs.eq_4]
    exact ih hc1 hc2 hw
  case case13 =>
    intro st fp ctx rest i isFloat f ih hc1 hc2 hw
    simp only [GTV.collectCompArgs.eq_5, if_true]
    exact ih hc1 hc2 hw
  case case14 =>
    intro st fp ctx rest isInt i f hni ih hc1 hc2 hw
    rw [GTV.collectCompArgs.eq_5, if_neg hni]
    simp only [if_true]
    exact ih hc1 hc2 hw
  case case15 =>
    intro st fp ctx rest isInt i isFloat f hni hnf ih hc1 hc2 hw
    rw [GTV.collectCompArgs.eq_5, if_neg hni, if_neg hnf]
    exact ih hc1 hc2 hw
  case case16 =>
    intro st fp ctx rest cmds ih1 ih2 hc1 hc2 hw
    rw [GTV.collectCompArgs.eq_6]
    exact ih2 hc1 hc2 (ih1 hc1 hc2 hw)
  case case17 =>
    intro st fp ctx a rest h1 h2 h3 h4 h5 ih hc1 hc2 hw
    rw [GTV.collectCompArgs.eq_7 st fp ctx a rest h1 h2 h3 h4 h5]
    exact ih hc1 hc2 hw
  case case18 =>
    intro st fp ctx args ih hc1 hc2 hw
    rw [GTV.extractEqComparison.eq_def]
    exact extractRemainingEq_wf fp ctx hc1 hc2 args _
      (insertEqChains_wf fp _ _ _ _ _
        (insertEqFields_wf fp ctx _ _ _ _ _ (ih hc1 hc2 hw)))

theorem walkPipe_wf (fp ctx : String) (hc1 : ctx ≠ "eq-number")
    (hc2 : ctx ≠ "gt-number") :
    ∀ (cmds : List (List TArg)) (st : AnalyzerState), wfVars st →
      wfVars (walkPipe st fp ctx cmds) := by
  intro cmds
  induction cmds with
  | nil => intro st hw; rw [GTV.walkPipe.eq_1]; exact hw
  | cons c cs ih =>
      intro st hw
      rw [GTV.walkPipe.eq_2]
      exact ih _ (walkCmd_wf st fp ctx c hc1 hc2 hw)

end GTV

namespace GTV

theorem rcCtx_ne_eqnum (ap : String) :
    (if ap ≠ "" then "range:" ++ ap else "range") ≠ "eq-number" := by
  by_cases h : ap ≠ ""
  · rw [if_pos h]
    exact rangeCtx_ne_eqnum ap
  · rw [if_neg h]
    decide

theorem rcCtx_ne_gtnum (ap : String) :
    (if ap ≠ "" then "range:" ++ ap else "range") ≠ "gt-number" := by
  by_cases h : ap ≠ ""
  · rw [if_pos h]
    exact rangeCtx_ne_gtnum ap
  · rw [if_neg h]
    decide

theorem rangeSt1_keep (st : AnalyzerState) (ap : String) (body : TNode) :
    keepsVars st (if ap ≠ "" then extractRangeLiterals st ap body else st) := by
  by_cases h : ap ≠ ""
  · rw [if_pos h]
    exact keep_of_varsMap_eq (extractRangeLiterals_varsMap st ap body)
  · rw [if_neg h]
    exact keep_refl st

theorem rangeSt1_wf (st : AnalyzerState) (ap : String) (body : TNode)
    (hw : wfVars st) :
    wfVars (if ap ≠ "" then extractRangeLiterals st ap body else st) := by
  by_cases h : ap ≠ ""
  · rw [if_pos h]
    exact wf_of_varsMap_eq (extractRangeLiterals_varsMap st ap body) hw
  · rw [if_neg h]
    exact hw

theorem walkNode_keep :
    ∀ (st : AnalyzerState) (fp ctx : String) (n : TNode),
      keepsVars st (walkNode st fp ctx n) := by
  have key := GTV.walkNode.induct
    (fun st fp ctx n => keepsVars st (walkNode st fp ctx n))
    (fun st fp ctx o => keepsVars st (walkNodeOpt st fp ctx o))
    (fun st fp ctx l => keepsVars st (walkNodeList st fp ctx l))
  intro st fp ctx n
  apply key
  case case1 =>
    intro st fp ctx children ih
    rw [GTV.walkNode.eq_1]
    exact ih
  case case2 =>
    intro st fp ctx pipe body alt ih1 ih2
    rw [GTV.walkNode.eq_2]
    exact keep_trans (walkPipe_keep fp ctx pipe st) (keep_trans ih1 ih2)
  case case3 =>
    intro st fp ctx pipe body alt arrayPath st1 st2 rc ih1 ih1b ih2
    rw [GTV.walkNode.eq_3]
    exact keep_trans (rangeSt1_keep st (firstFieldPath pipe) body)
      (keep_trans (walkPipe_keep fp "range-collection" pipe _)
        (keep_trans ih1 ih2))
  case case4 =>
    intro st fp ctx pipe body alt ih1 ih2
    rw [GTV.walkNode.eq_4]
    exact keep_trans (walkPipe_keep fp "with" pipe st) (keep_trans ih1 ih2)
  case case5 =>
    intro st fp ctx nm pipe
    rw [GTV.walkNode.eq_5]
    exact walkPipe_keep fp "template" pipe st
  case case6 =>
    intro st fp ctx pipe
    rw [GTV.walkNode.eq_6]
    exact walkPipe_keep fp ctx pipe st
  case case7 =>
    intro st fp ctx pipe body alt ih1 ih2
    rw [GTV.walkNode.eq_7]
    exact keep_trans (walkPipe_keep fp "branch" pipe st) (keep_trans ih1 ih2)
  case case8 =>
    intro st fp ctx
    rw [GTV.walkNode.eq_8]
    exact keep_refl st
  case case9 =>
    intro st fp ctx
    simp only [walkNodeOpt]
    exact keep_refl st
  case case10 =>
    intro st fp ctx n ih
    simp only [walkNodeOpt]
    exact ih
  case case11 =>
    intro st fp ctx
    simp only [walkNodeList]
    exact keep_refl st
  case case12 =>
    intro st fp ctx n rest ih1 ih2
    simp only [walkNodeList]
    exact keep_trans ih1 ih2

theorem walkNode_wf :
    ∀ (st : AnalyzerState) (fp ctx : String) (n : TNode),
      ctx ≠ "eq-number" → ctx ≠ "gt-number" → wfVars st →
      wfVars (walkNode st fp ctx n) := by
  have key := GTV.walkNode.induct
    (fun st fp ctx n => ctx ≠ "eq-number" → ctx ≠ "gt-number" → wfVars st →
      wfVars (walkNode st fp ctx n))
    (fun st fp ctx o => ctx ≠ "eq-number" → ctx ≠ "gt-number" → wfVars st →
      wfVars (walkNodeOpt st fp ctx o))
    (fun st fp ctx l => ctx ≠ "eq-number" → ctx ≠ "gt-number" → wfVars st →
      wfVars (walkNodeList st fp ctx l))
  intro st fp ctx n
  apply key
  case case1 =>
    intro st fp ctx children ih hc1 hc2 hw
    rw [GTV.walkNode.eq_1]
    exact ih hc1 hc2 hw
  case case2 =>
    intro st fp ctx pipe body alt ih1 ih2 hc1 hc2 hw
    rw [GTV.walkNode.eq_2]
    exact ih2 hc1 hc2 (ih1 hc1 hc2 (walkPipe_wf fp ctx hc1 hc2 pipe st hw))
  case case3 =>
    intro st fp ctx pipe body alt arrayPath st1 st2 rc ih1 ih1b ih2 hc1 hc2 hw
    rw [GTV.walkNode.eq_3]
    exact ih2 (rcCtx_ne_eqnum _) (rcCtx_ne_gtnum _)
      (ih1 (rcCtx_ne_eqnum _) (rcCtx_ne_gtnum _)
        (walkPipe_wf fp "range-collection" (by decide) (by decide) pipe _
          (rangeSt1_wf st (firstFieldPath pipe) body hw)))
  case case4 =>
    intro st fp ctx pipe body alt ih1 ih2 hc1 hc2 hw
    rw [GTV.walkNode.eq_4]
    exact ih2 (by decide) (by decide)
      (ih1 (by decide) (by decide)
        (walkPipe_wf fp "with" (by decide) (by decide) pipe st hw))
  case case5 =>
    intro st fp ctx nm pipe hc1 hc2 hw
    rw [GTV.walkNode.eq_5]
    exact walkPipe_wf fp "template" (by decide) (by decide) pipe st hw
  case case6 =>
    intro st fp ctx pipe hc1 hc2 hw
    rw [GTV.walkNode.eq_6]
    exact walkPipe_wf fp ctx hc1 hc2 pipe st hw
  case case7 =>
    intro st fp ctx pipe body alt ih1 ih2 hc1 hc2 hw
    rw [GTV.walkNode.eq_7]
    exact ih2 hc1 hc2
      (ih1 hc1 hc2 (walkPipe_wf fp "branch" (by decide) (by decide) pipe st hw))
  case case8 =>
    intro st fp ctx hc1 hc2 hw
    rw [GTV.walkNode.eq_8]
    exact hw
  case case9 =>
    intro st fp ctx hc1 hc2 hw
    simp only [walkNodeOpt]
    exact hw
  case case10 =>
    intro st fp ctx n ih hc1 hc2 hw
    simp only [walkNodeOpt]
    exact ih hc1 hc2 hw
  case case11 =>
    intro st fp ctx hc1 hc2 hw
    simp only [walkNodeList]
    exact hw
  case case12 =>
    intro st fp ctx n rest ih1 ih2 hc1 hc2 hw
    simp only [walkNodeList]
    exact ih2 hc1 hc2 (ih1 hc1 hc2 hw)

theorem analyzerStateOf_wf (fp : String) (root : TNode) :
    wfVars (analyzerStateOf fp root) := by
  unfold analyzerStateOf
  apply walkNode_wf initState fp "" root (by decide) (by decide)
  intro k v hv
  exact absurd hv (List.not_mem_nil _)

end GTV

namespace GTV

theorem collStrs (fp ctx : String) :
    ∀ (as : List TArg) (st : AnalyzerState),
      (collectCompArgs st fp ctx as).strs = collectStrsPure as := by
  intro as
  induction as with
  | nil =>
      intro st
      rw [GTV.collectCompArgs.eq_1]
      rfl
  | cons a rest ih =>
      intro st
      cases a
      case fieldA idents => rw [GTV.collectCompArgs.eq_2]; exact ih st
      case chainA base fields => rw [GTV.collectCompArgs.eq_3]; exact ih st
      case strA s =>
        rw [GTV.collectCompArgs.eq_4]
        show s :: (collectCompArgs st fp ctx rest).strs = s :: collectStrsPure rest
        rw [ih st]
      case numA isInt i isFloat f =>
        rw [GTV.collectCompArgs.eq_5]
        cases isInt
        · simp only [Bool.false_eq_true, if_false]
          cases isFloat
          · simp only [Bool.false_eq_true, if_false]
            exact ih st
          · simp only [if_true]
            exact ih st
        · simp only [if_true]
          exact ih st
      case pipeArg cmds => rw [GTV.collectCompArgs.eq_6]; exact ih _
      all_goals
        (rw [GTV.collectCompArgs.eq_7] <;>
          first
            | exact ih st
            | (intros; rename_i hh; cases hh))

theorem collNums (fp ctx : String) :
    ∀ (as : List TArg) (st : AnalyzerState),
      (collectCompArgs st fp ctx as).nums = collectNumsPure as := by
  intro as
  induction as with
  | nil =>
      intro st
      rw [GTV.collectCompArgs.eq_1]
      rfl
  | cons a rest ih =>
      intro st
      cases a
      case fieldA idents => rw [GTV.collectCompArgs.eq_2]; exact ih st
      case chainA base fields => rw [GTV.collectCompArgs.eq_3]; exact ih st
      case strA s => rw [GTV.collectCompArgs.eq_4]; exact ih st
      case numA isInt i isFloat f =>
        rw [GTV.collectCompArgs.eq_5]
        cases isInt
        · simp only [Bool.false_eq_true, if_false]
          cases isFloat
          · simp only [Bool.false_eq_true, if_false]
            show (collectCompArgs st fp ctx rest).nums = collectNumsPure rest
            exact ih st
          · simp only [if_true]
            show truncRat f :: (collectCompArgs st fp ctx rest).nums =
              truncRat f :: collectNumsPure rest
            rw [ih st]
        · simp only [if_true]
          show i :: (collectCompArgs st fp ctx rest).nums = i :: collectNumsPure rest
          rw [ih st]
      case pipeArg cmds => rw [GTV.collectCompArgs.eq_6]; exact ih _
      all_goals
        (rw [GTV.collectCompArgs.eq_7] <;>
          first
            | exact ih st
            | (intros; rename_i hh; cases hh))

theorem collFields (fp ctx : String) (idents : List String) :
    ∀ (as : List TArg) (st : AnalyzerState), TArg.fieldA idents ∈ as →
      idents ∈ (collectCompArgs st fp ctx as).fields := by
  intro as
  induction as with
  | nil => intro st h; exact absurd h (List.not_mem_nil _)
  | cons a rest ih =>
      intro st hmem
      cases a
      case fieldA idents2 =>
        rw [GTV.collectCompArgs.eq_2]
        rcases List.mem_cons.mp hmem with he | hr
        · have : idents = idents2 := by injection he
          rw [this]
          exact List.mem_cons_self _ _
        · exact List.mem_cons_of_mem _ (ih st hr)
      case chainA base fields =>
        rw [GTV.collectCompArgs.eq_3]
        rcases List.mem_cons.mp hmem with he | hr
        · cases he
        · exact ih st hr
      case strA s =>
        rw [GTV.collectCompArgs.eq_4]
        rcases List.mem_cons.mp hmem with he | hr
        · cases he
        · exact ih st hr
      case numA isInt i isFloat f =>
        rw [GTV.collectCompArgs.eq_5]
        rcases List.mem_cons.mp hmem with he | hr
        · cases he
        · cases isInt
          · simp only [Bool.false_eq_true, if_false]
            cases isFloat
            · simp only [Bool.false_eq_true, if_false]
              exact ih st hr
            · simp only [if_true]
              exact ih st hr
          · simp only [if_true]
            exact ih st hr
      case pipeArg cmds =>
        rw [GTV.collectCompArgs.eq_6]
        rcases List.mem_cons.mp hmem with he | hr
        · cases he
        · exact ih _ hr
      all_goals
        rcases List.mem_cons.mp hmem with he | hr
      all_goals try cases he
      all_goals
        (rw [GTV.collectCompArgs.eq_7] <;>
          first
            | exact ih st hr
            | (intros; rename_i hh; cases hh))

theorem extractEq_unfold (st : AnalyzerState) (fp ctx : String)
    (args : List TArg) :
    extractEqComparison st fp ctx args =
      extractRemainingEq
        (insertEqChains
          (insertEqFields (collectCompArgs st fp ctx args).st fp ctx
            (decide ((collectCompArgs st fp ctx args).nums ≠ []) &&
              decide ((collectCompArgs st fp ctx args).strs = []))
            (collectCompArgs st fp ctx args).strs
            (collectCompArgs st fp ctx args).nums
            (collectCompArgs st fp ctx args).fields)
          fp
          (decide ((collectCompArgs st fp ctx args).nums ≠ []) &&
            decide ((collectCompArgs st fp ctx args).strs = []))
          (collectCompArgs st fp ctx args).strs
          (collectCompArgs st fp ctx args).nums
          (collectCompArgs st fp ctx args).chains)
        fp ctx args := by
  rw [GTV.extractEqComparison.eq_def]

theorem extractEq_hits (st : AnalyzerState) (fp ctx : String)
    (rest : List TArg) (X : String) (L : Int)
    (hstrs : collectStrsPure rest = [])
    (hnums : L ∈ collectNumsPure rest)
    (hfield : ∃ idents, TArg.fieldA idents ∈ rest ∧
      String.intercalate "." idents ≠ "" ∧
      resolveCompPath ctx (String.intercalate "." idents) = some X) :
    ∃ v, lookupVar (extractEqComparison st fp ctx rest) X "eq-number" = some v := by
  obtain ⟨idents, hmem, hne, hres⟩ := hfield
  rw [extractEq_unfold]
  have hs : (collectCompArgs st fp ctx rest).strs = [] := by
    rw [collStrs]
    exact hstrs
  have hn : (collectCompArgs st fp ctx rest).nums ≠ [] := by
    rw [collNums]
    exact List.ne_nil_of_mem hnums
  have hbool : (decide ((collectCompArgs st fp ctx rest).nums ≠ []) &&
      decide ((collectCompArgs st fp ctx rest).strs = [])) = true := by
    simp [hn, hs]
  rw [hbool]
  obtain ⟨v, hv⟩ := insertEqFields_hits fp ctx
    (collectCompArgs st fp ctx rest).strs (collectCompArgs st fp ctx rest).nums
    X idents hne hres (collectCompArgs st fp ctx rest).fields
    (collectCompArgs st fp ctx rest).st (collFields fp ctx idents rest st hmem)
  refine ⟨v, ?_⟩
  apply extractRemainingEq_keep fp ctx rest _ X "eq-number" v
  apply insertEqChains_keep fp _ _ _ _ _ X "eq-number" v
  exact hv

theorem extractNum_unfold (st : AnalyzerState) (fp ctx : String)
    (args : List TArg) :
    extractNumericComparison st fp ctx args =
      extractRemainingNum
        (insertNumFields (collectCompArgs st fp ctx args).st fp ctx
          (collectCompArgs st fp ctx args).nums
          (collectCompArgs st fp ctx args).fields)
        fp ctx args := by
  rw [GTV.extractNumericComparison.eq_def]

end GTV

namespace GTV

theorem occArgsPipes_cons (ctx X : String) (L : Int) (a : TArg)
    (rest : List TArg) (hnp : ∀ cmds, a = TArg.pipeArg cmds → False) :
    occArgsPipes ctx X L (a :: rest) = occArgsPipes ctx X L rest := by
  rw [GTV.occArgsPipes.eq_3 ctx X L a rest hnp]

theorem lookupVar_mem (st : AnalyzerState) (p c : String) (v : Variable)
    (h : lookupVar st p c = some v) : ((p, c), v) ∈ st.varsMap := by
  unfold lookupVar at h
  rcases hf : st.varsMap.find? (fun e => e.1 = (p, c)) with _ | e <;> rw [hf] at h
  · exact absurd h (by simp)
  · have he : e ∈ st.varsMap := List.mem_of_find?_eq_some hf
    have hp : e.1 = (p, c) := by
      have := List.find?_some hf
      simpa using this
    have hv : e.2 = v := by
      simpa using h
    have : ((p, c), v) = e := by
      rw [← hp, ← hv]
    rw [this]
    exact he

theorem walkCmd_occ (X : String) (L : Int) :
    ∀ (st : AnalyzerState) (fp ctx : String) (args : List TArg),
      occCmd ctx X L args = true →
      ∃ v, lookupVar (walkCmd st fp ctx args) X "eq-number" = some v := by
  have key := GTV.walkCmd.induct
    (fun st fp ctx cmds => occPipe ctx X L cmds = true →
      ∃ v, lookupVar (walkPipe st fp ctx cmds) X "eq-number" = some v)
    (fun st fp ctx args => occCmd ctx X L args = true →
      ∃ v, lookupVar (walkCmd st fp ctx args) X "eq-number" = some v)
    (fun st fp ctx args => occArgsPipes ctx X L args = true →
      ∃ v, lookupVar (extractNumericComparison st fp ctx args) X "eq-number" = some v)
    (fun st fp ctx args => occArgsPipes ctx X L args = true →
      ∃ v, lookupVar ((collectCompArgs st fp ctx args).st) X "eq-number" = some v)
    (fun st fp ctx args =>
      ((decide (collectStrsPure args = []) && decide (L ∈ collectNumsPure args)
          && args.any (fun a =>
              match a with
              | TArg.fieldA idents =>
                  decide (String.intercalate "." idents ≠ "")
                  && decide (resolveCompPath ctx (String.intercalate "." idents) = some X)
              | _ => false))
        || occArgsPipes ctx X L args) = true →
      ∃ v, lookupVar (extractEqComparison st fp ctx args) X "eq-number" = some v)
  intro st fp ctx args
  apply key
  case case1 =>
    intro st fp ctx h
    rw [GTV.occPipe.eq_1] at h
    exact absurd h (by simp)
  case case2 =>
    intro st fp ctx c cs ih1 ih2 h
    rw [GTV.occPipe.eq_2] at h
    rw [GTV.walkPipe.eq_2]
    rcases Bool.or_eq_true_iff.mp h with h1 | h2
    · obtain ⟨v, hv⟩ := ih1 h1
      exact ⟨v, walkPipe_keep fp ctx cs _ X "eq-number" v hv⟩
    · exact ih2 h2
  case case3 =>
    intro st fp ctx n rest hn hlen ih h
    rw [GTV.occCmd.eq_1, if_pos hlen, if_pos hn] at h
    rw [GTV.walkCmd.eq_1, if_pos hlen, if_pos hn]
    exact ih h
  case case4 =>
    intro st fp ctx n rest hne hgt hlen ih h
    rw [GTV.occCmd.eq_1, if_pos hlen, if_neg hne, if_pos hgt] at h
    rw [GTV.walkCmd.eq_1, if_pos hlen, if_neg hne, if_pos hgt]
    exact ih h
  case case5 =>
    intro st fp ctx n rest hne hngt hlen h
    rw [GTV.occCmd.eq_1, if_pos hlen, if_neg hne, if_neg hngt] at h
    exact absurd h (by simp)
  case case6 =>
    intro st fp ctx args hlen hx h
    rw [GTV.occCmd.eq_2 ctx X L args hx] at h
    simp at h
  case case7 =>
    intro st fp ctx args hlen h
    rw [GTV.occCmd.eq_def, if_neg hlen] at h
    exact absurd h (by simp)
  case case8 =>
    intro st fp ctx args ih h
    rw [extractNum_unfold]
    obtain ⟨v, hv⟩ := ih h
    refine ⟨v, ?_⟩
    apply extractRemainingNum_keep fp ctx args _ X "eq-number" v
    apply insertNumFields_keep fp ctx _ _ _ X "eq-number" v
    exact hv
  case case9 =>
    intro st fp ctx h
    rw [GTV.occArgsPipes.eq_1] at h
    exact absurd h (by simp)
  case case10 =>
    intro st fp ctx rest idents ih h
    rw [occArgsPipes_cons ctx X L _ rest (fun _ hh => by cases hh)] at h
    rw [GTV.collectCompArgs.eq_2]
    exact ih h
  case case11 =>
    intro st fp ctx rest base fields ih h
    rw [occArgsPipes_cons ctx X L _ rest (fun _ hh => by cases hh)] at h
    rw [GTV.collectCompArgs.eq_3]
    exact ih h
  case case12 =>
    intro st fp ctx rest s ih h
    rw [occArgsPipes_cons ctx X L _ rest (fun _ hh => by cases hh)] at h
    rw [GTV.collectCompArgs.eq_4]
    exact ih h
  case case13 =>
    intro st fp ctx rest i isFloat f ih h
    rw [occArgsPipes_cons ctx X L _ rest (fun _ hh => by cases hh)] at h
    simp only [GTV.collectCompArgs.eq_5, if_true]
    exact ih h
  case case14 =>
    intro st fp ctx rest isInt i f hni ih h
    rw [occArgsPipes_cons ctx X L _ rest (fun _ hh => by cases hh)] at h
    rw [GTV.collectCompArgs.eq_5, if_neg hni]
    simp only [if_true]
    exact ih h
  case case15 =>
    intro st fp ctx rest isInt i isFloat f hni hnf ih h
    rw [occArgsPipes_cons ctx X L _ rest (fun _ hh => by cases hh)] at h
    rw [GTV.collectCompArgs.eq_5, if_neg hni, if_neg hnf]
    exact ih h
  case case16 =>
    intro st fp ctx rest cmds ih1 ih2 h
    rw [GTV.occArgsPipes.eq_2] at h
    rw [GTV.collectCompArgs.eq_6]
    rcases Bool.or_eq_true_iff.mp h with h1 | h2
    · obtain ⟨v, hv⟩ := ih1 h1
      exact ⟨v, collectCompArgs_keep fp ctx rest _ X "eq-number" v hv⟩
    · exact ih2 h2
  case case17 =>
    intro st fp ctx a rest h1 h2 h3 h4 h5 ih h
    rw [occArgsPipes_cons ctx X L a rest h5] at h
    rw [GTV.collectCompArgs.eq_7 st fp ctx a rest h1 h2 h3 h4 h5]
    exact ih h
  case case18 =>
    intro st fp ctx args ih h
    rcases Bool.or_eq_true_iff.mp h with h1 | h2
    · simp only [Bool.and_eq_true, decide_eq_true_eq, List.any_eq_true] at h1
      obtain ⟨⟨hstrs, hnums⟩, a, hmem, hma⟩ := h1
      cases a <;> simp at hma
      case fieldA idents =>
        exact extractEq_hits st fp ctx args X L hstrs hnums
          ⟨idents, hmem, hma.1, hma.2⟩
    · rw [extractEq_unfold]
      obtain ⟨v, hv⟩ := ih h2
      refine ⟨v, ?_⟩
      apply extractRemainingEq_keep fp ctx args _ X "eq-number" v
      apply insertEqChains_keep fp _ _ _ _ _ X "eq-number" v
      apply insertEqFields_keep fp ctx _ _ _ _ _ X "eq-number" v
      exact hv

end GTV

namespace GTV

theorem walkPipe_occ (X : String) (L : Int) (fp ctx : String) :
    ∀ (cmds : List (List TArg)) (st : AnalyzerState),
      occPipe ctx X L cmds = true →
      ∃ v, lookupVar (walkPipe st fp ctx cmds) X "eq-number" = some v := by
  intro cmds
  induction cmds with
  | nil =>
      intro st h
      rw [GTV.occPipe.eq_1] at h
      exact absurd h (by simp)
  | cons c cs ih =>
      intro st h
      rw [GTV.occPipe.eq_2] at h
      rw [GTV.walkPipe.eq_2]
      rcases Bool.or_eq_true_iff.mp h with h1 | h2
      · obtain ⟨v, hv⟩ := walkCmd_occ X L st fp ctx c h1
        exact ⟨v, walkPipe_keep fp ctx cs _ X "eq-number" v hv⟩
      · exact ih _ h2

theorem walkNodeOpt_keep (fp ctx : String) (o : Option TNode)
    (st : AnalyzerState) : keepsVars st (walkNodeOpt st fp ctx o) := by
  cases o
  · simp only [walkNodeOpt]
    exact keep_refl st
  · simp only [walkNodeOpt]
    exact walkNode_keep st fp ctx _

theorem walkNodeList_keep (fp ctx : String) :
    ∀ (l : List TNode) (st : AnalyzerState),
      keepsVars st (walkNodeList st fp ctx l) := by
  intro l
  induction l with
  | nil =>
      intro st
      simp only [walkNodeList]
      exact keep_refl st
  | cons n rest ih =>
      intro st
      simp only [walkNodeList]
      exact keep_trans (walkNode_keep st fp ctx n) (ih _)

theorem walkNode_occ (X : String) (L : Int) :
    ∀ (st : AnalyzerState) (fp ctx : String) (n : TNode),
      occNode ctx X L n = true →
      ∃ v, lookupVar (walkNode st fp ctx n) X "eq-number" = some v := by
  have key := GTV.walkNode.induct
    (fun st fp ctx n => occNode ctx X L n = true →
      ∃ v, lookupVar (walkNode st fp ctx n) X "eq-number" = some v)
    (fun st fp ctx o => occNodeOpt ctx X L o = true →
      ∃ v, lookupVar (walkNodeOpt st fp ctx o) X "eq-number" = some v)
    (fun st fp ctx l => occNodeList ctx X L l = true →
      ∃ v, lookupVar (walkNodeList st fp ctx l) X "eq-number" = some v)
  intro st fp ctx n
  apply key
  case case1 =>
    intro st fp ctx children ih h
    rw [GTV.occNode.eq_1] at h
    rw [GTV.walkNode.eq_1]
    exact ih h
  case case2 =>
    intro st fp ctx pipe body alt ih1 ih2 h
    rw [GTV.occNode.eq_2] at h
    rw [GTV.walkNode.eq_2]
    rcases Bool.or_eq_true_iff.mp h with h12 | h3
    · rcases Bool.or_eq_true_iff.mp h12 with h1 | h2
      · obtain ⟨v, hv⟩ := walkPipe_occ X L fp ctx pipe st h1
        exact ⟨v, walkNodeOpt_keep fp ctx alt _ X "eq-number" v
          (walkNode_keep _ fp ctx body X "eq-number" v hv)⟩
      · obtain ⟨v, hv⟩ := ih1 h2
        exact ⟨v, walkNodeOpt_keep fp ctx alt _ X "eq-number" v hv⟩
    · exact ih2 h3
  case case3 =>
    intro st fp ctx pipe body alt arrayPath st1 st2 rc ih1 ih1b ih2 h
    rw [GTV.occNode.eq_3] at h
    rw [GTV.walkNode.eq_3]
    rcases Bool.or_eq_true_iff.mp h with h12 | h3
    · rcases Bool.or_eq_true_iff.mp h12 with h1 | h2
      · obtain ⟨v, hv⟩ := walkPipe_occ X L fp "range-collection" pipe
          (if firstFieldPath pipe ≠ "" then
            extractRangeLiterals st (firstFieldPath pipe) body else st) h1
        exact ⟨v, walkNodeOpt_keep fp _ alt _ X "eq-number" v
          (walkNode_keep _ fp _ body X "eq-number" v hv)⟩
      · obtain ⟨v, hv⟩ := ih1 h2
        exact ⟨v, walkNodeOpt_keep fp _ alt _ X "eq-number" v hv⟩
    · exact ih2 h3
  case case4 =>
    intro st fp ctx pipe body alt ih1 ih2 h
    rw [GTV.occNode.eq_4] at h
    rw [GTV.walkNode.eq_4]
    rcases Bool.or_eq_true_iff.mp h with h12 | h3
    · rcases Bool.or_eq_true_iff.mp h12 with h1 | h2
      · obtain ⟨v, hv⟩ := walkPipe_occ X L fp "with" pipe st h1
        exact ⟨v, walkNodeOpt_keep fp "with" alt _ X "eq-number" v
          (walkNode_keep _ fp "with" body X "eq-number" v hv)⟩
      · obtain ⟨v, hv⟩ := ih1 h2
        exact ⟨v, walkNodeOpt_keep fp "with" alt _ X "eq-number" v hv⟩
    · exact ih2 h3
  case case5 =>
    intro st fp ctx nm pipe h
    rw [GTV.occNode.eq_5] at h
    rw [GTV.walkNode.eq_5]
    exact walkPipe_occ X L fp "template" pipe st h
  case case6 =>
    intro st fp ctx pipe h
    rw [GTV.occNode.eq_6] at h
    rw [GTV.walkNode.eq_6]
    exact walkPipe_occ X L fp ctx pipe st h
  case case7 =>
    intro st fp ctx pipe body alt ih1 ih2 h
    rw [GTV.occNode.eq_7] at h
    rw [GTV.walkNode.eq_7]
    rcases Bool.or_eq_true_iff.mp h with h12 | h3
    · rcases Bool.or_eq_true_iff.mp h12 with h1 | h2
      · obtain ⟨v, hv⟩ := walkPipe_occ X L fp "branch" pipe st h1
        exact ⟨v, walkNodeOpt_keep fp ctx alt _ X "eq-number" v
          (walkNode_keep _ fp ctx body X "eq-number" v hv)⟩
      · obtain ⟨v, hv⟩ := ih1 h2
        exact ⟨v, walkNodeOpt_keep fp ctx alt _ X "eq-number" v hv⟩
    · exact ih2 h3
  case case8 =>
    intro st fp ctx h
    rw [GTV.occNode.eq_8] at h
    exact absurd h (by simp)
  case case9 =>
    intro st fp ctx h
    simp only [occNodeOpt] at h
    exact absurd h (by simp)
  case case10 =>
    intro st fp ctx n ih h
    simp only [occNodeOpt] at h
    simp only [walkNodeOpt]
    exact ih h
  case case11 =>
    intro st fp ctx h
    simp only [occNodeList] at h
    exact absurd h (by simp)
  case case12 =>
    intro st fp ctx n rest ih1 ih2 h
    simp only [occNodeList] at h
    simp only [walkNodeList]
    rcases Bool.or_eq_true_iff.mp h with h1 | h2
    · obtain ⟨v, hv⟩ := ih1 h1
      exact ⟨v, walkNodeList_keep fp ctx rest _ X "eq-number" v hv⟩
    · exact ih2 h2

end GTV

namespace GTV

theorem varsOf_entry (fp X : String) (L : Int) (root : TNode)
    (h : occNode "" X L root = true) :
    ∃ v, v ∈ varsOf fp root ∧ v.path = X ∧ v.varType = "number" ∧
      v.context = "eq-number" ∧ ∃ m, v.suggested = SuggestedVal.intV m := by
  obtain ⟨v, hv⟩ := walkNode_occ X L initState fp "" root h
  have hmem : ((X, "eq-number"), v) ∈ (analyzerStateOf fp root).varsMap := by
    unfold analyzerStateOf
    exact lookupVar_mem _ _ _ _ hv
  have hwf := analyzerStateOf_wf fp root (X, "eq-number") v hmem
  refine ⟨v, ?_, hwf.1, (hwf.2.2 (Or.inl rfl)).1, hwf.2.1,
    (hwf.2.2 (Or.inl rfl)).2⟩
  unfold varsOf
  exact List.mem_map.mpr ⟨((X, "eq-number"), v), hmem, rfl⟩

theorem varsOf_wf (fp : String) (root : TNode) (u : Variable)
    (hu : u ∈ varsOf fp root)
    (hctx : u.context = "eq-number" ∨ u.context = "gt-number") :
    u.varType = "number" ∧ ∃ m, u.suggested = SuggestedVal.intV m := by
  unfold varsOf at hu
  obtain ⟨e, he, heq⟩ := List.mem_map.mp hu
  have hwf := analyzerStateOf_wf fp root e.1 e.2 (by rw [Prod.mk.eta]; exact he)
  subst heq
  exact hwf.2.2 (by rw [← hwf.2.1]; exact hctx)

theorem prio_ten (c : String) (h : 10 ≤ priorityContexts c) :
    c = "eq-number" ∨ c = "gt-number" := by
  unfold priorityContexts at h
  by_cases h1 : c = "eq-number"
  · exact Or.inl h1
  rw [if_neg h1] at h
  by_cases h2 : c = "gt-number"
  · exact Or.inr h2
  rw [if_neg h2] at h
  split_ifs at h <;> omega

theorem recalc_mem_self (m : List Variable) (u : Variable) (hu : u ∈ m)
    (hna : u.varType ≠ "array") : u ∈ recalcArrays m := by
  unfold recalcArrays
  refine List.mem_map.mpr ⟨u, hu, ?_⟩
  rw [if_neg (by simp [hna])]

theorem recalc_mem_cases (m : List Variable) (v : Variable)
    (h : v ∈ recalcArrays m) :
    ∃ u, u ∈ m ∧ (v = u ∨ (u.varType = "array" ∧
      v = ⟨u.path, u.varType, u.context, u.filePath, .objListV⟩)) := by
  unfold recalcArrays at h
  obtain ⟨u, hu, huv⟩ := List.mem_map.mp h
  by_cases hc : (u.varType = "array" && m.any
      (fun o => strStartsWith o.path (u.path ++ "[0]."))) = true
  · rw [if_pos hc] at huv
    refine ⟨u, hu, Or.inr ⟨?_, huv.symm⟩⟩
    have h2 := hc
    rw [Bool.and_eq_true] at h2
    have := h2.1
    simpa using this
  · rw [if_neg hc] at huv
    exact ⟨u, hu, Or.inl huv.symm⟩

end GTV

namespace GTV

/-- C4 (amended): an `eq`/`ne` comparison of a field resolving to path X
with at least one number literal and no string literal guarantees (1) an
accumulated descriptor for X with type `number`, context `eq-number` and
an integer suggested value (the value of the first such extraction for X,
not necessarily the literal of this occurrence); (2) after
deduplication and array recomputation, the retained descriptor for X is
number-typed with context `eq-number` or `gt-number` and an integer
suggested value; (3) any descriptor for X surviving the final redundancy
filter keeps those properties. -/
theorem eq_number_suggested_C4 (fp X : String) (L : Int) (root : TNode)
    (hocc : occNode "" X L root = true) :
    (∃ v, v ∈ varsOf fp root ∧ v.path = X ∧ v.varType = "number" ∧
      v.context = "eq-number" ∧ ∃ m, v.suggested = SuggestedVal.intV m) ∧
    (∃ v, v ∈ recalcArrays (dedupVars (varsOf fp root)) ∧ v.path = X ∧
      v.varType = "number" ∧
      (v.context = "eq-number" ∨ v.context = "gt-number") ∧
      ∃ m, v.suggested = SuggestedVal.intV m) ∧
    (∀ v, v ∈ analyzeVars fp root → v.path = X →
      v.varType = "number" ∧
      (v.context = "eq-number" ∨ v.context = "gt-number") ∧
      ∃ m, v.suggested = SuggestedVal.intV m) := by
  obtain ⟨w, hw, hwp, hwt, hwc, hws⟩ := varsOf_entry fp X L root hocc
  have hdnd : ((dedupVars (varsOf fp root)).map (fun v => v.path)).Nodup :=
    dedupFold_nodup (varsOf fp root) [] (by simp)
  have hdom := dedupFold_dom (varsOf fp root) [] (by simp) w hw
  obtain ⟨u3, hu3, hu3p, hu3pr⟩ := hdom
  have h10 : 10 ≤ priorityContexts u3.context := by
    rw [hwc] at hu3pr
    have he : priorityContexts "eq-number" = 10 := by decide
    rw [he] at hu3pr
    exact hu3pr
  have hu3mem : u3 ∈ varsOf fp root := by
    rcases dedupFold_mem (varsOf fp root) [] u3 hu3 with h0 | h1
    · exact absurd h0 (List.not_mem_nil u3)
    · exact h1
  have hcls := prio_ten u3.context h10
  obtain ⟨hu3t, hu3s⟩ := varsOf_wf fp root u3 hu3mem hcls
  refine ⟨⟨w, hw, hwp, hwt, hwc, hws⟩, ?_, ?_⟩
  · refine ⟨u3, recalc_mem_self _ u3 hu3 ?_, by rw [hu3p, hwp], hu3t, hcls, hu3s⟩
    rw [hu3t]
    decide
  · intro v hv hvp
    have hv2 : v ∈ recalcArrays (dedupVars (varsOf fp root)) := by
      have hv3 : v ∈ finalizeVariables (varsOf fp root) := hv
      unfold finalizeVariables at hv3
      exact skip_sub _ _ _ v hv3
    obtain ⟨u2, hu2, hcase⟩ := recalc_mem_cases _ v hv2
    have hu2p : u2.path = v.path := by
      rcases hcase with hc1 | hc2
      · rw [hc1]
      · rw [hc2.2]
    have huu : u2 = u3 := by
      apply nodup_map_inj (fun v => v.path) (dedupVars (varsOf fp root)) hdnd
        u2 hu2 u3 hu3
      show u2.path = u3.path
      rw [hu2p, hvp, hu3p, hwp]
    rcases hcase with hc1 | hc2
    · rw [hc1, huu]
      exact ⟨hu3t, hcls, hu3s⟩
    · exfalso
      have : u2.varType = "array" := hc2.1
      rw [huu, hu3t] at this
      exact absurd this (by decide)

end GTV

namespace GTV

/-- C4 counterexample: in `{{if eq .X 1}}…{{end}}{{if eq .X 2}}…{{end}}`
the occurrence `eq .X 2` (number literal 2, no string literal) yields no
descriptor for X with suggested value 2: the first extraction (literal 1)
wins, and `insertVarIfAbsent` never overwrites it. -/
theorem eq_number_suggested_C4_counterexample :
    occNode "" "X" 2 twoEqTree = true ∧
    ¬ ∃ v, v ∈ analyzeVars "f" twoEqTree ∧ v.path = "X" ∧
      v.varType = "number" ∧ v.suggested = SuggestedVal.intV 2 := by
  constructor
  · simp only [twoEqTree, occNode, occNodeList, occNodeOpt, occPipe, occCmd,
      occArgsPipes]
    decide
  · have hv : varsOf "f" twoEqTree =
        [⟨"X", "number", "eq-number", "f", .intV 1⟩] := by
      simp only [varsOf, analyzerStateOf, twoEqTree, initState, walkNode,
        walkNodeList, walkNodeOpt, walkPipe, walkCmd, extractEqComparison,
        collectCompArgs, insertEqFields, insertEqChains, extractRemainingEq,
        extractVariables, extractVarsArgs, extractVarsCmds]
      decide
    rw [show analyzeVars "f" twoEqTree = finalizeVariables (varsOf "f" twoEqTree)
      from rfl, hv]
    decide

theorem eq_number_suggested_C4_witness :
    occNode "" "Count" 7 oneEqTree = true ∧
    ((∃ v, v ∈ varsOf "f" oneEqTree ∧ v.path = "Count" ∧
        v.varType = "number" ∧ v.context = "eq-number" ∧
        ∃ m, v.suggested = SuggestedVal.intV m) ∧
      (∃ v, v ∈ recalcArrays (dedupVars (varsOf "f" oneEqTree)) ∧
        v.path = "Count" ∧ v.varType = "number" ∧
        (v.context = "eq-number" ∨ v.context = "gt-number") ∧
        ∃ m, v.suggested = SuggestedVal.intV m) ∧
      (∀ v, v ∈ analyzeVars "f" oneEqTree → v.path = "Count" →
        v.varType = "number" ∧
        (v.context = "eq-number" ∨ v.context = "gt-number") ∧
        ∃ m, v.suggested = SuggestedVal.intV m)) :=
  ⟨by
    simp only [oneEqTree, occNode, occNodeList, occNodeOpt, occPipe, occCmd,
      occArgsPipes]
    decide,
   eq_number_suggested_C4 "f" "Count" 7 oneEqTree (by
    simp only [oneEqTree, occNode, occNodeList, occNodeOpt, occPipe, occCmd,
      occArgsPipes]
    decide)⟩

end GTV

namespace GTV

theorem insertVarIfAbsent_new (st : AnalyzerState) (p c : String) (w : Variable)
    (hnone : lookupVar st p c = none) :
    lookupVar (insertVarIfAbsent st p c w) p c = some w := by
  have hf : st.varsMap.find? (fun e => e.1 = (p, c)) = none := by
    unfold lookupVar at hnone
    exact Option.map_eq_none'.mp hnone
  unfold insertVarIfAbsent
  rw [if_neg (by simp [hf])]
  unfold lookupVar
  rw [find?_append_none _ _ _ hf]
  simp

theorem insertPlainVar_record (st : AnalyzerState) (fp p c : String) :
    ∃ v, lookupVar (insertPlainVar st fp p c) p c = some v ∧
      (lookupVar st p c = none →
        v = ⟨p, inferType c p, c, fp, suggestValue st (inferType c p) p⟩) := by
  by_cases hn : lookupVar st p c = none
  · exact ⟨_, insertVarIfAbsent_new st p c _ hn, fun _ => rfl⟩
  · obtain ⟨v, hv⟩ := insertVarIfAbsent_present st p c
      ⟨p, inferType c p, c, fp, suggestValue st (inferType c p) p⟩
    exact ⟨v, hv, fun h => absurd h hn⟩

/-- C5: scope handling of the walker's variable extraction. A field
argument under a `range:X` scope is recorded under the path
`X[0].<field>` with context `range`; under the bare `range` scope it is
discarded (the state is unchanged); under the empty or `with` scope its
path is recorded verbatim with the scope as context; and a chain
argument with a non-empty field list is always recorded under its
unprefixed joined path with context `chain`, whatever the scope. Each
recorded descriptor is the standard one built from `inferType` and
`suggestValue` when its key is fresh. -/
theorem field_scope_rules_C5 :
    (∀ (st : AnalyzerState) (fp ctx : String) (idents : List String),
      strStartsWith ctx "range:" = true →
      String.intercalate "." idents ≠ "" →
      ∃ v, lookupVar (extractVariables st fp ctx (.fieldA idents))
          (ctx.drop 6 ++ "[0]." ++ String.intercalate "." idents) "range" =
          some v ∧
        (lookupVar st (ctx.drop 6 ++ "[0]." ++ String.intercalate "." idents)
            "range" = none →
          v = ⟨ctx.drop 6 ++ "[0]." ++ String.intercalate "." idents,
            inferType "range" (ctx.drop 6 ++ "[0]." ++ String.intercalate "." idents),
            "range", fp,
            suggestValue st
              (inferType "range" (ctx.drop 6 ++ "[0]." ++ String.intercalate "." idents))
              (ctx.drop 6 ++ "[0]." ++ String.intercalate "." idents)⟩)) ∧
    (∀ (st : AnalyzerState) (fp : String) (idents : List String),
      extractVariables st fp "range" (.fieldA idents) = st) ∧
    (∀ (st : AnalyzerState) (fp ctx : String) (idents : List String),
      ctx = "" ∨ ctx = "with" →
      String.intercalate "." idents ≠ "" →
      ∃ v, lookupVar (extractVariables st fp ctx (.fieldA idents))
          (String.intercalate "." idents) ctx = some v ∧
        (lookupVar st (String.intercalate "." idents) ctx = none →
          v = ⟨String.intercalate "." idents,
            inferType ctx (String.intercalate "." idents), ctx, fp,
            suggestValue st (inferType ctx (String.intercalate "." idents))
              (String.intercalate "." idents)⟩)) ∧
    (∀ (st : AnalyzerState) (fp ctx : String) (base : TArg)
        (fields : List String),
      0 < fields.length →
      String.intercalate "." fields ≠ "" →
      ∃ v, lookupVar (extractVariables st fp ctx (.chainA base fields))
          (String.intercalate "." fields) "chain" = some v ∧
        (lookupVar st (String.intercalate "." fields) "chain" = none →
          v = ⟨String.intercalate "." fields,
            inferType "chain" (String.intercalate "." fields), "chain", fp,
            suggestValue st (inferType "chain" (String.intercalate "." fields))
              (String.intercalate "." fields)⟩)) := by
  refine ⟨?_, ?_, ?_, ?_⟩
  · intro st fp ctx idents hs hne
    simp only [extractVariables]
    rw [if_neg hne, if_pos hs]
    exact insertPlainVar_record st fp _ "range"
  · intro st fp idents
    simp only [extractVariables]
    by_cases hne : String.intercalate "." idents = ""
    · rw [if_pos hne]
    · rw [if_neg hne, if_neg (by decide : ¬ strStartsWith "range" "range:" = true)]
      simp only [if_true]
  · intro st fp ctx idents hctx hne
    have hs : ¬ strStartsWith ctx "range:" = true := by
      rcases hctx with h | h <;> subst h <;> decide
    have hr : ctx ≠ "range" := by
      rcases hctx with h | h <;> subst h <;> decide
    simp only [extractVariables]
    rw [if_neg hne, if_neg hs, if_neg hr]
    exact insertPlainVar_record st fp _ ctx
  · intro st fp ctx base fields hlen hne
    simp only [extractVariables]
    rw [if_pos hlen, if_pos hne]
    obtain ⟨v, hv, hfresh⟩ := insertPlainVar_record st fp
      (String.intercalate "." fields) "chain"
    refine ⟨v, ?_, hfresh⟩
    apply extractVariables_keep _ fp ctx base _ "chain" v
    exact hv

end GTV

namespace GTV

theorem field_scope_rules_C5_witness :
    strStartsWith "range:Items" "range:" = true ∧
    String.intercalate "." ["Name"] ≠ "" ∧
    (∃ v, lookupVar
        (extractVariables initState "f" "range:Items" (.fieldA ["Name"]))
        (("range:Items").drop 6 ++ "[0]." ++ String.intercalate "." ["Name"])
        "range" = some v) ∧
    (∃ v, lookupVar
        (extractVariables initState "f" "range" (.chainA .dotA ["User", "Name"]))
        (String.intercalate "." ["User", "Name"]) "chain" = some v) := by
  refine ⟨by decide, by decide, ?_, ?_⟩
  · obtain ⟨v, hv, h2⟩ := field_scope_rules_C5.1 initState "f" "range:Items"
      ["Name"] (by decide) (by decide)
    exact ⟨v, hv⟩
  · obtain ⟨v, hv, h2⟩ := field_scope_rules_C5.2.2.2 initState "f" "range"
      .dotA ["User", "Name"] (by decide) (by decide)
    exact ⟨v, hv⟩

end GTV
